import Mathlib

/-!
Shallow embedding of the earthquake-map repository's parsing pipeline and
acquisition chain (src/app/services/earthquake-service.ts, which also carries
the server actions module, and src/app/api/proxy/route.ts).

Strings are manipulated through their character lists; JavaScript numbers are
modelled exactly: `JSNum.nan` for the `NaN` sentinel and `JSNum.num q` for a
decimal value held as a rational.  The report tokens are short decimal
literals, for which exact decimal arithmetic coincides with JavaScript double
parsing and shortest-round-trip printing.
-/

namespace Koeri

/-- Model of a JavaScript number as produced by `parseFloat`: the `NaN`
sentinel or an exact decimal value. -/
inductive JSNum where
  | nan : JSNum
  | num (q : ℚ) : JSNum
deriving DecidableEq

/-- JavaScript whitespace (the characters of the regexp class \s that can
occur in the report text, which is ASCII apart from header banners). -/
def isWsChar (c : Char) : Bool :=
  c == ' ' || c == '\t' || c == '\n' || c == '\r' || c == '\x0b' || c == '\x0c'

/-- JavaScript `String.prototype.trim`. -/
def jsTrim (s : String) : String :=
  ⟨((s.data.dropWhile isWsChar).reverse.dropWhile isWsChar).reverse⟩

/-- JavaScript `split('\n')` on the character list: splits at every newline,
keeping empty pieces. -/
def splitNlC : List Char → List (List Char)
  | [] => [[]]
  | c :: cs =>
    if c == '\n' then [] :: splitNlC cs
    else
      match splitNlC cs with
      | [] => [[c]]
      | w :: ws => (c :: w) :: ws

/-- JavaScript `rawText.split('\n')`. -/
def splitLines (s : String) : List String := (splitNlC s.data).map fun l => ⟨l⟩

/-- Helper for `splitWs`: accumulates the current word (reversed). -/
def wordsAux : List Char → List Char → List (List Char)
  | [], acc => if acc.isEmpty then [] else [acc.reverse]
  | c :: cs, acc =>
    if isWsChar c then
      if acc.isEmpty then wordsAux cs [] else acc.reverse :: wordsAux cs []
    else wordsAux cs (c :: acc)

/-- JavaScript `line.split(/\s+/)` applied to a trimmed string: splits on runs
of whitespace.  (On a trimmed, non-empty string the JavaScript call produces
exactly the non-empty words, which is what this computes; both parsers only
ever split trimmed strings.) -/
def splitWs (s : String) : List String := (wordsAux s.data []).map fun l => ⟨l⟩

/-- Is `p` a literal prefix of the second list? -/
def litPrefix : List Char → List Char → Bool
  | [], _ => true
  | _ :: _, [] => false
  | p :: ps, c :: cs => p == c && litPrefix ps cs

/-- JavaScript `s.includes(pat)`: does `pat` occur contiguously? -/
def hasInfixC (pat : List Char) : List Char → Bool
  | [] => litPrefix pat []
  | c :: cs => litPrefix pat (c :: cs) || hasInfixC pat cs

/-- JavaScript `s.indexOf(pat)` (as an `Option` instead of `-1`). -/
def idxOfSubC (pat : List Char) : List Char → Option Nat
  | [] => if litPrefix pat [] then some 0 else none
  | c :: cs =>
    if litPrefix pat (c :: cs) then some 0
    else (idxOfSubC pat cs).map (· + 1)

/-- JavaScript `s.startsWith(p)`. -/
def startsWithStr (s p : String) : Bool := litPrefix p.data s.data

/-- Does the regexp `\d{4}\.\d{2}\.\d{2}` match at the head of the list? -/
def dateAt : List Char → Bool
  | a :: b :: c :: d :: p :: e :: f :: p2 :: g :: h :: _ =>
    a.isDigit && b.isDigit && c.isDigit && d.isDigit && p == '.' &&
      e.isDigit && f.isDigit && p2 == '.' && g.isDigit && h.isDigit
  | _ => false

/-- JavaScript `datePattern.test(s)` for `/\d{4}\.\d{2}\.\d{2}/`: does the
date pattern match anywhere? -/
def hasDateC : List Char → Bool
  | [] => false
  | c :: cs => dateAt (c :: cs) || hasDateC cs

/-- Index of the first match of the date pattern (JavaScript
`s.match(datePattern)` position). -/
def firstDateIdxC : List Char → Option Nat
  | [] => none
  | c :: cs => if dateAt (c :: cs) then some 0 else (firstDateIdxC cs).map (· + 1)

/-- Does the regexp `\d{2}:\d{2}:\d{2}` match at the head of the list? -/
def timeAt : List Char → Bool
  | a :: b :: k1 :: c :: d :: k2 :: e :: f :: _ =>
    a.isDigit && b.isDigit && k1 == ':' && c.isDigit && d.isDigit &&
      k2 == ':' && e.isDigit && f.isDigit
  | _ => false

/-- After at least one whitespace character has been consumed: consume the
remaining whitespace, then require the time pattern.  (Equivalent to the
regexp fragment `\s*\d{2}:\d{2}:\d{2}` given that a digit is not
whitespace.) -/
def skipWsTime : List Char → Bool
  | [] => false
  | c :: cs => if isWsChar c then skipWsTime cs else timeAt (c :: cs)

/-- Regexp fragment `\s+\d{2}:\d{2}:\d{2}`. -/
def wsThenTime : List Char → Bool
  | [] => false
  | c :: cs => isWsChar c && skipWsTime cs

/-- JavaScript `/^\d{4}\.\d{2}\.\d{2}\s+\d{2}:\d{2}:\d{2}/.test(line)`, the
validation gate of `parseEarthquakeLines`. -/
def startsWithDateTime (cs : List Char) : Bool :=
  match cs with
  | a :: b :: c :: d :: p :: e :: f :: p2 :: g :: h :: rest =>
    a.isDigit && b.isDigit && c.isDigit && d.isDigit && p == '.' &&
      e.isDigit && f.isDigit && p2 == '.' && g.isDigit && h.isDigit &&
      wsThenTime rest
  | _ => false

/-- The decimal digit character for a digit value. -/
def digitChar : Nat → Char
  | 0 => '0' | 1 => '1' | 2 => '2' | 3 => '3' | 4 => '4'
  | 5 => '5' | 6 => '6' | 7 => '7' | 8 => '8' | 9 => '9'
  | _ => '*'

/-- The digit value of a decimal digit character. -/
def charDigit (c : Char) : Nat := c.toNat - 48

/-- Fuel-driven most-significant-first decimal digits of a natural number. -/
def natDigitsAux : Nat → Nat → List Nat
  | 0, _ => []
  | fuel + 1, n => if n < 10 then [n] else natDigitsAux fuel (n / 10) ++ [n % 10]

/-- Decimal digits of a natural number, most significant first. -/
def natDigits (n : Nat) : List Nat := natDigitsAux (n + 1) n

/-- Decimal digit characters of a natural number. -/
def natToChars (n : Nat) : List Char := (natDigits n).map digitChar

/-- Value of a most-significant-first digit list. -/
def undigits (l : List Nat) : Nat := l.foldl (fun a d => 10 * a + d) 0

/-- Value of a most-significant-first digit character list. -/
def charsToNat (l : List Char) : Nat := l.foldl (fun a c => 10 * a + charDigit c) 0

/-- The fractional digits of `m`, zero-padded on the left to width `k`. -/
def padFrac (k m : Nat) : List Char :=
  List.replicate (k - (natDigits m).length) '0' ++ natToChars m

/-- Fuel-driven search for the least decimal exponent, starting at `k`. -/
def findExpAux (q : ℚ) : Nat → Nat → Option Nat
  | 0, _ => none
  | fuel + 1, k => if (q * 10 ^ k).den == 1 then some k else findExpAux q fuel (k + 1)

/-- Least decimal exponent `k` with `q * 10 ^ k` integral, searched up to the
denominator (which always suffices when such a `k` exists at all). -/
def findExp (q : ℚ) : Option Nat := findExpAux q (q.den + 1) 0

/-- Decimal numeral of a non-negative rational: integer part, and fractional
part (without trailing zeros) when the value is not an integer.  A value that
is not a finite decimal cannot arise from `parseFloat`; such values print as
a fraction so that the function stays total. -/
def absToChars (a : ℚ) : List Char :=
  match findExp a with
  | some 0 => natToChars a.num.natAbs
  | some (k + 1) =>
    natToChars ((a * 10 ^ (k + 1)).num.natAbs / 10 ^ (k + 1)) ++
      '.' :: padFrac (k + 1) ((a * 10 ^ (k + 1)).num.natAbs % 10 ^ (k + 1))
  | none => natToChars a.num.natAbs ++ '/' :: natToChars a.den

/-- JavaScript number-to-string conversion (template literal `${n}`): `NaN`
prints as `"NaN"`; a finite decimal prints as its canonical decimal numeral
(sign, integer part, fractional part without trailing zeros), which is the
shortest-round-trip form JavaScript prints for the report's tokens. -/
def numToString : JSNum → String
  | .nan => "NaN"
  | .num q => ⟨(if q < 0 then ['-'] else []) ++ absToChars |q|⟩

/-- Sign handling of `parseFloat`: a leading `-` or `+` is consumed. -/
def splitSign (cs : List Char) : ℚ × List Char :=
  match cs with
  | '-' :: r => (-1, r)
  | '+' :: r => (1, r)
  | cs => (1, cs)

/-- JavaScript `parseFloat` on a whitespace-free token, restricted to plain
decimal literals (optional sign, integer digits, optional point and fraction
digits; the longest valid prefix is used, trailing junk is ignored, and an
unparseable token yields `NaN`).  Exponent, hexadecimal and `Infinity` forms
cannot occur in the whitespace-split report tokens this parser receives. -/
def jsParseFloat (s : String) : JSNum :=
  let sgn := splitSign s.data
  let ds := sgn.2.takeWhile Char.isDigit
  let rest := sgn.2.dropWhile Char.isDigit
  match rest with
  | '.' :: r2 =>
    let fs := r2.takeWhile Char.isDigit
    if ds.isEmpty && fs.isEmpty then .nan
    else .num (sgn.1 * ((charsToNat ds : ℚ) + (charsToNat fs : ℚ) / 10 ^ fs.length))
  | _ => if ds.isEmpty then .nan else .num (sgn.1 * (charsToNat ds : ℚ))

/-- The `Earthquake` record type of `src/app/actions` (the server module
bundled with the service file). -/
structure Earthquake where
  date : String
  time : String
  latitude : JSNum
  longitude : JSNum
  depth : JSNum
  magnitudeMD : Option JSNum
  magnitudeML : Option JSNum
  magnitudeMw : Option JSNum
  location : String
  solutionQuality : String
  id : String
deriving DecidableEq

/-- JavaScript `arr.join(" ")`. -/
def joinSp : List String → String
  | [] => ""
  | [s] => s
  | s :: rest => s ++ " " ++ joinSp rest

/-- JavaScript `arr.join("\n")`. -/
def joinNl : List String → String
  | [] => ""
  | [s] => s
  | s :: rest => s ++ "\n" ++ joinNl rest

/-- The derived key: `date_time_latitude_longitude` with the numbers printed
by the template literal. -/
def mkId (date time : String) (lat lon : JSNum) : String :=
  date ++ "_" ++ time ++ "_" ++ numToString lat ++ "_" ++ numToString lon

/-- Body of the per-line callback of the client-side `parseEarthquakeData`
(earthquake-service.ts lines 139-196).  The early `return` for short lines is
`none`; nothing in the body can throw, so the per-line catch is dead. -/
def parseLineClient (line : String) : Option Earthquake :=
  let parts := splitWs (jsTrim line)
  if parts.length < 10 then none
  else
    let date := parts.getD 0 ""
    let time := parts.getD 1 ""
    let latitude := jsParseFloat (parts.getD 2 "")
    let longitude := jsParseFloat (parts.getD 3 "")
    let depth := jsParseFloat (parts.getD 4 "")
    let magnitudeMD := if parts.getD 5 "" == "-.-" then none else some (jsParseFloat (parts.getD 5 ""))
    let magnitudeML := if parts.getD 6 "" == "-.-" then none else some (jsParseFloat (parts.getD 6 ""))
    let magnitudeMw := if parts.getD 7 "" == "-.-" then none else some (jsParseFloat (parts.getD 7 ""))
    let solutionQuality := jsTrim (parts.getD (parts.length - 1) "")
    let locationEnd :=
      if startsWithStr solutionQuality "REVIZE" &&
          startsWithStr (parts.getD (parts.length - 2) "") "(" then
        parts.length - 3
      else parts.length - 2
    let location := jsTrim (joinSp ((parts.drop 8).take (locationEnd + 1 - 8)))
    some { date, time, latitude, longitude, depth, magnitudeMD, magnitudeML,
           magnitudeMw, location, solutionQuality,
           id := mkId date time latitude longitude }

/-- The candidate-line predicate shared by both modules:
`datePattern.test(line) && line.includes("-.-")`. -/
def candidateLine (line : String) : Bool :=
  hasDateC line.data && hasInfixC "-.-".data line.data

/-- Client-side `parseEarthquakeData` (earthquake-service.ts lines 118-204):
keep the non-blank candidate lines and run the per-line parser on each. -/
def parseEarthquakeDataClient (rawText : String) : List Earthquake :=
  let lines := ((splitLines rawText).filter fun l => (jsTrim l).length > 0).filter candidateLine
  if lines.length == 0 then [] else lines.filterMap parseLineClient

/-- Body of the per-line callback of the server-side `parseEarthquakeLines`
(actions module, service file lines 435-502).  Differences from the client
version: the `^date\s+time` validation gate, and the location's right
boundary, which here starts at the last index (so the ordinary branch keeps
the final token inside `location`). -/
def parseLineServer (line : String) : Option Earthquake :=
  if !startsWithDateTime line.data then none
  else
    let parts := splitWs (jsTrim line)
    if parts.length < 10 then none
    else
      let date := parts.getD 0 ""
      let time := parts.getD 1 ""
      let latitude := jsParseFloat (parts.getD 2 "")
      let longitude := jsParseFloat (parts.getD 3 "")
      let depth := jsParseFloat (parts.getD 4 "")
      let magnitudeMD := if parts.getD 5 "" == "-.-" then none else some (jsParseFloat (parts.getD 5 ""))
      let magnitudeML := if parts.getD 6 "" == "-.-" then none else some (jsParseFloat (parts.getD 6 ""))
      let magnitudeMw := if parts.getD 7 "" == "-.-" then none else some (jsParseFloat (parts.getD 7 ""))
      let solutionQuality := jsTrim (parts.getD (parts.length - 1) "")
      let locationEnd :=
        if startsWithStr solutionQuality "REVIZE" &&
            startsWithStr (parts.getD (parts.length - 2) "") "(" then
          parts.length - 3
        else parts.length - 1
      let location := jsTrim (joinSp ((parts.drop 8).take (locationEnd + 1 - 8)))
      some { date, time, latitude, longitude, depth, magnitudeMD, magnitudeML,
             magnitudeMw, location, solutionQuality,
             id := mkId date time latitude longitude }

/-- Server-side `parseEarthquakeLines` (lines 415-506): trim every line, drop
blanks, parse each surviving line independently. -/
def parseEarthquakeLines (dataSection : String) : List Earthquake :=
  (((splitLines dataSection).map jsTrim).filter fun l => l.length > 0).filterMap
    parseLineServer

/-- The exact column-header line searched for by the server-side locator. -/
def serverHeaderMain : String :=
  "Tarih      Saat      Enlem(N)  Boylam(E) Derinlik(km)  MD   ML   Mw    Yer"

/-- The alternate header strings tried in order by the server-side locator. -/
def alternateHeaders : List String :=
  ["Tarih", "Date", "TURKIYE VE YAKIN CEVRESINDEKI SON DEPREMLER",
   "TÜRKİYE VE YAKIN ÇEVRESİNDEKİ SON DEPREMLER"]

/-- The non-blank candidate lines of a text, in order. -/
def candidateLines (s : String) : List String :=
  ((splitLines s).filter fun l => (jsTrim l).length > 0).filter candidateLine

/-- JavaScript `s.substring(i)` for a non-negative index. -/
def subFrom (s : String) (i : Nat) : String := ⟨s.data.drop i⟩

/-- Index of the first occurrence of a character. -/
def firstCharIdx (t : Char) : List Char → Option Nat
  | [] => none
  | c :: cs => if c == t then some 0 else (firstCharIdx t cs).map (· + 1)

/-- The alternate-headers loop of the server-side `parseEarthquakeData`
(lines 337-372): for each header in order, if it occurs and a date pattern
occurs after it, filter the candidate lines of the text from that date
onwards; parse them if any, otherwise keep looping; return empty after the
loop. -/
def tryAltHeaders : List String → String → List Earthquake
  | [], _ => []
  | h :: hs, rawText =>
    match idxOfSubC h.data rawText.data with
    | none => tryAltHeaders hs rawText
    | some idx =>
      let afterHeader := subFrom rawText idx
      match firstDateIdxC afterHeader.data with
      | none => tryAltHeaders hs rawText
      | some j =>
        let dataSection := subFrom rawText (j + idx)
        let lines := candidateLines dataSection
        if lines.length > 0 then parseEarthquakeLines (joinNl lines)
        else tryAltHeaders hs rawText

/-- The header-based part of the server-side `parseEarthquakeData` (entered
when no line passes the direct scan): the exact column header followed by a
dashed separator, otherwise the alternate-headers loop. -/
def mainHeaderScan (rawText : String) : List Earthquake :=
  match idxOfSubC serverHeaderMain.data rawText.data with
  | none => tryAltHeaders alternateHeaders rawText
  | some hIdx =>
    let afterHeader := subFrom rawText (hIdx + serverHeaderMain.data.length)
    match firstCharIdx '-' afterHeader.data with
    | none => []
    | some sIdx =>
      let runLen := ((afterHeader.data.drop sIdx).takeWhile fun c => c == '-').length
      let afterSeparator := subFrom afterHeader (sIdx + runLen)
      let lines := candidateLines afterSeparator
      if lines.length > 0 then parseEarthquakeLines (joinNl lines) else []

/-- Server-side `parseEarthquakeData` (lines 309-410): direct scan first;
otherwise the header-based scans. -/
def parseEarthquakeDataServer (rawText : String) : List Earthquake :=
  match (splitLines rawText).find? candidateLine with
  | some _ => parseEarthquakeLines (joinNl (candidateLines rawText))
  | none => mainHeaderScan rawText

/-- Modelled from the spec: the static fallback dataset module
(`src/app/data/fallback-data`) is not present under `src/`.  The spec
describes it as a fixed, bundled set of example records, recognizable by the
consumer through the first record's date starting with `2023.05.01`; one
representative record suffices since the acquisition chain treats the dataset
as an opaque constant. -/
def fallbackEarthquakeData : List Earthquake :=
  [{ date := "2023.05.01", time := "12:00:00", latitude := .num 38,
     longitude := .num 27, depth := .num 7, magnitudeMD := none,
     magnitudeML := some (.num 3), magnitudeMw := none,
     location := "SAMPLE RECORD", solutionQuality := "A",
     id := mkId "2023.05.01" "12:00:00" (.num 38) (.num 27) }]

/-- Behaviour of one transport attempt: the `fetch`/body-read pair either
throws or delivers a response with a success flag and a body text. -/
inductive FetchOutcome where
  | netError : FetchOutcome
  | response (ok : Bool) (body : String) : FetchOutcome
deriving DecidableEq

/-- One behaviour of the three transports used by the client-side chain. -/
structure Transports where
  direct : FetchOutcome
  localProxy : FetchOutcome
  publicProxy : FetchOutcome
deriving DecidableEq

/-- JavaScript `try`/`catch` over an exception monad. -/
def jsTry (x : Except String (List Earthquake))
    (handler : String → Except String (List Earthquake)) :
    Except String (List Earthquake) :=
  match x with
  | .ok a => .ok a
  | .error e => handler e

/-- The transport step as an exception-monad computation. -/
def fetchE (o : FetchOutcome) : Except String (Bool × String) :=
  match o with
  | .netError => .error "network error"
  | .response ok body => .ok (ok, body)

/-- Client-side `fetchWithPublicProxy` (lines 81-115) with the transport's
behaviour explicit and exceptions explicit. -/
def fetchWithPublicProxyE (t : Transports) : Except String (List Earthquake) :=
  jsTry
    (do
      let r ← fetchE t.publicProxy
      if !r.1 then pure fallbackEarthquakeData
      else
        let earthquakes := parseEarthquakeDataClient r.2
        if earthquakes.length == 0 then pure fallbackEarthquakeData
        else pure earthquakes)
    (fun _ => pure fallbackEarthquakeData)

/-- Client-side `fetchWithProxy` (lines 47-78). -/
def fetchWithProxyE (t : Transports) : Except String (List Earthquake) :=
  jsTry
    (do
      let r ← fetchE t.localProxy
      if !r.1 then fetchWithPublicProxyE t
      else
        let earthquakes := parseEarthquakeDataClient r.2
        if earthquakes.length == 0 then fetchWithPublicProxyE t
        else pure earthquakes)
    (fun _ => fetchWithPublicProxyE t)

/-- Client-side `fetchEarthquakeData` (lines 5-44). -/
def fetchEarthquakeDataE (t : Transports) : Except String (List Earthquake) :=
  jsTry
    (do
      let r ← fetchE t.direct
      if !r.1 then fetchWithProxyE t
      else
        let earthquakes := parseEarthquakeDataClient r.2
        if earthquakes.length == 0 then fetchWithProxyE t
        else pure earthquakes)
    (fun _ => fetchWithProxyE t)

/-- Exception-free result of one stage: produced records if the transport
succeeded with a success status and at least one record parsed, otherwise the
next stage's result. -/
def stageStep (o : FetchOutcome) (next : List Earthquake) : List Earthquake :=
  match o with
  | .netError => next
  | .response ok body =>
    if !ok then next
    else
      let earthquakes := parseEarthquakeDataClient body
      if earthquakes.length == 0 then next else earthquakes

/-- Exception-free result of `fetchWithPublicProxy`. -/
def fetchWithPublicProxyPure (t : Transports) : List Earthquake :=
  stageStep t.publicProxy fallbackEarthquakeData

/-- Exception-free result of `fetchWithProxy`. -/
def fetchWithProxyPure (t : Transports) : List Earthquake :=
  stageStep t.localProxy (fetchWithPublicProxyPure t)

/-- The whole client-side chain as a pure function of the transports. -/
def fetchEarthquakeDataPure (t : Transports) : List Earthquake :=
  stageStep t.direct (fetchWithProxyPure t)

/-- Did a stage fail to produce usable data (threw, non-success status, or a
body from which zero records parse)? -/
def stageFails (o : FetchOutcome) : Prop :=
  match o with
  | .netError => True
  | .response ok body => ok = false ∨ parseEarthquakeDataClient body = []

/-- All header strings known to the locator, in the order they are tried. -/
def specHeaders : List String := serverHeaderMain :: alternateHeaders

/-- Modelled from the spec (§4.1, step 2), for comparison with the code: the
header-anchored scan as the spec words it — search the known header strings,
from the first header match scan forward to the first date-pattern
occurrence, and re-apply the candidate predicate to everything from that
point to the end of the text, returning those lines. -/
def specHeaderScanLines : List String → String → List String
  | [], _ => []
  | h :: hs, rawText =>
    match idxOfSubC h.data rawText.data with
    | none => specHeaderScanLines hs rawText
    | some idx =>
      match firstDateIdxC (rawText.data.drop idx) with
      | none => []
      | some j => candidateLines ⟨rawText.data.drop (idx + j)⟩

/-- A number is `NaN` or a finite decimal.  Every `jsParseFloat` result
satisfies this. -/
def FinDecP : JSNum → Prop
  | .nan => True
  | .num q => ∃ k, (|q| * 10 ^ k).den = 1

/-! ### Decimal digit lemmas -/

theorem charDigit_digitChar {d : Nat} (h : d < 10) : charDigit (digitChar d) = d := by
  interval_cases d <;> rfl

theorem digitChar_isDigit {d : Nat} (h : d < 10) : (digitChar d).isDigit = true := by
  interval_cases d <;> rfl

theorem natDigitsAux_lt_ten (fuel : Nat) :
    ∀ n, ∀ d ∈ natDigitsAux fuel n, d < 10 := by
  induction fuel with
  | zero => intro n d hd; simp [natDigitsAux] at hd
  | succ fuel ih =>
    intro n d hd
    rw [natDigitsAux] at hd
    by_cases h10 : n < 10
    · rw [if_pos h10] at hd; simp at hd; omega
    · rw [if_neg h10] at hd
      rcases List.mem_append.mp hd with h | h
      · exact ih _ _ h
      · simp at h; subst h; exact Nat.mod_lt _ (by omega)

theorem natDigitsAux_ne_nil {fuel n : Nat} (h : n < fuel) :
    natDigitsAux fuel n ≠ [] := by
  cases fuel with
  | zero => omega
  | succ fuel =>
    rw [natDigitsAux]
    by_cases h10 : n < 10
    · rw [if_pos h10]; simp
    · rw [if_neg h10]; simp

theorem undigits_natDigitsAux (fuel : Nat) :
    ∀ n, n < fuel → undigits (natDigitsAux fuel n) = n := by
  induction fuel with
  | zero => omega
  | succ fuel ih =>
    intro n hn
    rw [natDigitsAux]
    by_cases h10 : n < 10
    · rw [if_pos h10]; simp [undigits]
    · rw [if_neg h10]
      have hdiv : n / 10 < fuel := by
        have := Nat.div_lt_self (by omega : 0 < n) (by omega : 1 < 10)
        omega
      rw [undigits, List.foldl_append]
      have : (natDigitsAux fuel (n / 10)).foldl (fun a d => 10 * a + d) 0 =
          n / 10 := ih _ hdiv
      rw [this]
      simp only [List.foldl]
      omega

theorem natDigitsAux_length_le (fuel : Nat) :
    ∀ n j, n < fuel → 1 ≤ j → n < 10 ^ j → (natDigitsAux fuel n).length ≤ j := by
  induction fuel with
  | zero => omega
  | succ fuel ih =>
    intro n j hf hj hn
    rw [natDigitsAux]
    by_cases h10 : n < 10
    · rw [if_pos h10]; simpa using hj
    · rw [if_neg h10]
      have hj2 : 2 ≤ j := by
        by_contra hc
        have hj1 : j = 1 := by omega
        subst hj1
        simp at hn
        omega
      have hdivf : n / 10 < fuel := by
        have := Nat.div_lt_self (by omega : 0 < n) (by omega : 1 < 10)
        omega
      have hdivp : n / 10 < 10 ^ (j - 1) := by
        have hpow : 10 ^ (j - 1) * 10 = 10 ^ j := by
          rw [← pow_succ]
          congr 1
          omega
        have := (Nat.div_lt_iff_lt_mul (by omega : 0 < 10)).mpr (hpow ▸ hn)
        exact this
      have := ih (n / 10) (j - 1) hdivf (by omega) hdivp
      simp only [List.length_append, List.length_cons, List.length_nil]
      omega

theorem natDigits_lt_ten {n : Nat} : ∀ d ∈ natDigits n, d < 10 :=
  natDigitsAux_lt_ten (n + 1) n

theorem natDigits_ne_nil {n : Nat} : natDigits n ≠ [] :=
  natDigitsAux_ne_nil (Nat.lt_succ_self n)

theorem undigits_natDigits (n : Nat) : undigits (natDigits n) = n :=
  undigits_natDigitsAux (n + 1) n (Nat.lt_succ_self n)

theorem natDigits_length_le {n j : Nat} (hj : 1 ≤ j) (hn : n < 10 ^ j) :
    (natDigits n).length ≤ j :=
  natDigitsAux_length_le (n + 1) n j (Nat.lt_succ_self n) hj hn

theorem foldl_map_digitChar :
    ∀ (l : List Nat), (∀ d ∈ l, d < 10) → ∀ a : Nat,
      (l.map digitChar).foldl (fun a c => 10 * a + charDigit c) a =
        l.foldl (fun a d => 10 * a + d) a := by
  intro l
  induction l with
  | nil => intro _ a; rfl
  | cons d t ih =>
    intro hl a
    simp only [List.map_cons, List.foldl_cons]
    rw [charDigit_digitChar (hl d (List.mem_cons_self d t))]
    exact ih (fun x hx => hl x (List.mem_cons_of_mem _ hx)) _

theorem charsToNat_natToChars (n : Nat) : charsToNat (natToChars n) = n := by
  rw [natToChars, charsToNat, foldl_map_digitChar _ natDigits_lt_ten]
  exact undigits_natDigits n

theorem charsToNat_replicate_zero (j : Nat) (l : List Char) :
    charsToNat (List.replicate j '0' ++ l) = charsToNat l := by
  induction j with
  | zero => rfl
  | succ j ih =>
    rw [List.replicate_succ, List.cons_append, charsToNat, List.foldl_cons]
    exact ih

theorem charsToNat_padFrac (k m : Nat) : charsToNat (padFrac k m) = m := by
  rw [padFrac, charsToNat_replicate_zero]
  exact charsToNat_natToChars m

theorem padFrac_length {k m : Nat} (hk : 1 ≤ k) (hm : m < 10 ^ k) :
    (padFrac k m).length = k := by
  have h := natDigits_length_le hk hm
  simp only [padFrac, natToChars, List.length_append, List.length_replicate,
    List.length_map]
  omega

theorem mem_natToChars_isDigit {n : Nat} : ∀ c ∈ natToChars n, c.isDigit = true := by
  intro c hc
  obtain ⟨d, hd, rfl⟩ := List.mem_map.mp hc
  exact digitChar_isDigit (natDigits_lt_ten d hd)

theorem mem_padFrac_isDigit {k m : Nat} : ∀ c ∈ padFrac k m, c.isDigit = true := by
  intro c hc
  rcases List.mem_append.mp hc with h | h
  · rw [List.eq_of_mem_replicate h]; rfl
  · exact mem_natToChars_isDigit c h

theorem isDigit_ne_dot {c : Char} (h : c.isDigit = true) : c ≠ '.' := by
  rintro rfl; exact absurd h (by decide)

theorem isDigit_ne_dash {c : Char} (h : c.isDigit = true) : c ≠ '-' := by
  rintro rfl; exact absurd h (by decide)

theorem isDigit_ne_us {c : Char} (h : c.isDigit = true) : c ≠ '_' := by
  rintro rfl; exact absurd h (by decide)

theorem isDigit_ne_upperN {c : Char} (h : c.isDigit = true) : c ≠ 'N' := by
  rintro rfl; exact absurd h (by decide)

/-! ### Splitting a list at a distinguished element -/

theorem append_cons_inj_left {α : Type} {c : α} :
    ∀ {A A' : List α} {B B' : List α}, A ++ c :: B = A' ++ c :: B' →
      c ∉ A → c ∉ A' → A = A' ∧ B = B' := by
  intro A
  induction A with
  | nil =>
    intro A' B B' h _ hA'
    cases A' with
    | nil => simpa using h
    | cons x t =>
      simp only [List.nil_append, List.cons_append, List.cons.injEq] at h
      exact absurd (h.1 ▸ List.mem_cons_self x t) hA'
  | cons x t ih =>
    intro A' B B' h hA hA'
    cases A' with
    | nil =>
      simp only [List.cons_append, List.nil_append, List.cons.injEq] at h
      exact absurd (h.1 ▸ List.mem_cons_self x t) hA
    | cons y t' =>
      simp only [List.cons_append, List.cons.injEq] at h
      obtain ⟨rfl, h2⟩ := h
      have := ih h2 (fun hc => hA (List.mem_cons_of_mem _ hc))
        (fun hc => hA' (List.mem_cons_of_mem _ hc))
      exact ⟨by rw [this.1], this.2⟩

theorem append_cons_inj_right {α : Type} {c : α} :
    ∀ {A A' : List α} {B B' : List α}, A ++ c :: B = A' ++ c :: B' →
      c ∉ B → c ∉ B' → A = A' ∧ B = B' := by
  intro A
  induction A with
  | nil =>
    intro A' B B' h hB _
    cases A' with
    | nil => simpa using h
    | cons y t' =>
      simp only [List.nil_append, List.cons_append, List.cons.injEq] at h
      refine absurd ?_ hB
      rw [h.2]
      exact List.mem_append.mpr (Or.inr (List.mem_cons_self c B'))
  | cons x t ih =>
    intro A' B B' h hB hB'
    cases A' with
    | nil =>
      simp only [List.cons_append, List.nil_append, List.cons.injEq] at h
      refine absurd ?_ hB'
      rw [← h.2]
      exact List.mem_append.mpr (Or.inr (List.mem_cons_self c B))
    | cons y t' =>
      simp only [List.cons_append, List.cons.injEq] at h
      obtain ⟨rfl, h2⟩ := h
      have := ih h2 hB hB'
      exact ⟨by rw [this.1], this.2⟩

/-! ### Finite decimals and the exponent search -/

theorem den_one_iff_dvd {q : ℚ} {k : Nat} :
    (q * 10 ^ k).den = 1 ↔ q.den ∣ 10 ^ k := by
  constructor
  · intro h
    have hz : ((q * 10 ^ k).num : ℚ) = q * 10 ^ k := (Rat.den_eq_one_iff _).mp h
    have h10 : ((10 : ℚ) ^ k) ≠ 0 := by positivity
    have hq : q = Rat.divInt ((q * 10 ^ k).num) ((10 : ℤ) ^ k) := by
      rw [Rat.divInt_eq_div]
      rw [hz]
      push_cast
      field_simp
    have hd := Rat.den_dvd ((q * 10 ^ k).num) ((10 : ℤ) ^ k)
    rw [← hq] at hd
    have : ((q.den : ℤ)) ∣ ((10 ^ k : ℕ) : ℤ) := by push_cast; exact_mod_cast hd
    exact_mod_cast this
  · rintro ⟨c, hc⟩
    have hden : ((q.den : ℚ)) ≠ 0 := by
      exact_mod_cast q.den_ne_zero
    have h10 : ((10 : ℚ)) ^ k = (q.den : ℚ) * (c : ℚ) := by exact_mod_cast hc
    have hval : q * 10 ^ k = ((q.num * (c : ℤ) : ℤ) : ℚ) := by
      rw [h10]
      nth_rewrite 1 [← Rat.num_div_den q]
      push_cast
      field_simp
      ring
    rw [hval, Rat.den_intCast]

theorem findExpAux_isSome (q : ℚ) :
    ∀ (fuel k0 : Nat), (∃ j, j < fuel ∧ (q * 10 ^ (k0 + j)).den = 1) →
      (findExpAux q fuel k0).isSome = true := by
  intro fuel
  induction fuel with
  | zero => intro k0 h; obtain ⟨j, hj, _⟩ := h; omega
  | succ fuel ih =>
    intro k0 h
    rw [findExpAux]
    by_cases h0 : ((q * 10 ^ k0).den == 1) = true
    · rw [if_pos h0]
      rfl
    · rw [if_neg h0]
      obtain ⟨j, hj, hp⟩ := h
      refine ih (k0 + 1) ⟨j - 1, ?_, ?_⟩
      · have hj0 : j ≠ 0 := by
          rintro rfl
          exact h0 (beq_iff_eq.mpr (by simpa using hp))
        omega
      · have hj0 : j ≠ 0 := by
          rintro rfl
          exact h0 (beq_iff_eq.mpr (by simpa using hp))
        have : k0 + 1 + (j - 1) = k0 + j := by omega
        rw [this]
        exact hp

theorem findExp_isSome {q : ℚ} (h : ∃ k, (q * 10 ^ k).den = 1) :
    (findExp q).isSome = true := by
  obtain ⟨K, hK⟩ := h
  have hdvd : q.den ∣ 10 ^ K := den_one_iff_dvd.mp hK
  have h10 : (10 : ℕ) ^ K = 2 ^ K * 5 ^ K := by rw [← Nat.mul_pow]
  rw [h10] at hdvd
  obtain ⟨a, b, ha, hb, hab⟩ := Nat.dvd_mul.mp hdvd
  obtain ⟨i, _, rfl⟩ := (Nat.dvd_prime_pow Nat.prime_two).mp ha
  obtain ⟨j, _, rfl⟩ := (Nat.dvd_prime_pow (by norm_num)).mp hb
  have h2 : 2 ^ i ≤ q.den := Nat.le_of_dvd q.pos (hab ▸ Dvd.intro _ rfl)
  have h5 : 5 ^ j ≤ q.den := Nat.le_of_dvd q.pos (hab ▸ Dvd.intro_left _ rfl)
  have hi : i < 2 ^ i := Nat.lt_two_pow i
  have hj : j < 5 ^ j := Nat.lt_pow_self (by norm_num) j
  have hdvd0 : q.den ∣ 10 ^ max i j := by
    have hm : (10 : ℕ) ^ max i j = 2 ^ max i j * 5 ^ max i j := by
      rw [← Nat.mul_pow]
    rw [hm, ← hab]
    exact Nat.mul_dvd_mul (Nat.pow_dvd_pow 2 (Nat.le_max_left i j))
      (Nat.pow_dvd_pow 5 (Nat.le_max_right i j))
  exact findExpAux_isSome q (q.den + 1) 0
    ⟨max i j, by omega, by simpa using den_one_iff_dvd.mpr hdvd0⟩

theorem findExpAux_spec (q : ℚ) :
    ∀ (fuel k0 k : Nat), findExpAux q fuel k0 = some k → (q * 10 ^ k).den = 1 := by
  intro fuel
  induction fuel with
  | zero => intro k0 k h; cases h
  | succ fuel ih =>
    intro k0 k h
    rw [findExpAux] at h
    by_cases h0 : ((q * 10 ^ k0).den == 1) = true
    · rw [if_pos h0] at h
      cases h
      exact beq_iff_eq.mp h0
    · rw [if_neg h0] at h
      exact ih (k0 + 1) k h

theorem findExp_spec {q : ℚ} {k : Nat} (h : findExp q = some k) :
    (q * 10 ^ k).den = 1 :=
  findExpAux_spec q (q.den + 1) 0 k h

theorem splitSign_one_or_neg_one (cs : List Char) :
    (splitSign cs).1 = 1 ∨ (splitSign cs).1 = -1 := by
  unfold splitSign
  split <;> simp

theorem finDecP_jsParseFloat (s : String) : FinDecP (jsParseFloat s) := by
  have habs : ∀ (sg x : ℚ), (sg = 1 ∨ sg = -1) → 0 ≤ x → |sg * x| = x := by
    rintro sg x (rfl | rfl) hx
    · rw [one_mul, abs_of_nonneg hx]
    · rw [neg_one_mul, abs_neg, abs_of_nonneg hx]
  have hsgn := splitSign_one_or_neg_one s.data
  rw [jsParseFloat]
  dsimp only
  split
  · -- fractional branch
    rename_i r2 heq
    split
    · trivial
    · simp only [FinDecP]
      set L := (List.takeWhile Char.isDigit r2).length with hL
      set i := charsToNat ((splitSign s.data).2.takeWhile Char.isDigit) with hi
      set f := charsToNat (List.takeWhile Char.isDigit r2) with hf
      refine ⟨L, ?_⟩
      have hx : (0 : ℚ) ≤ (i : ℚ) + (f : ℚ) / 10 ^ L := by positivity
      rw [habs _ _ hsgn hx]
      have hv : ((i : ℚ) + (f : ℚ) / 10 ^ L) * 10 ^ L =
          ((i * 10 ^ L + f : ℕ) : ℚ) := by
        push_cast
        field_simp
      rw [hv, Rat.den_natCast]
  · -- integer branch
    split
    · trivial
    · simp only [FinDecP]
      set i := charsToNat ((splitSign s.data).2.takeWhile Char.isDigit) with hi
      refine ⟨0, ?_⟩
      have hx : (0 : ℚ) ≤ (i : ℚ) := by positivity
      rw [habs _ _ hsgn hx]
      rw [pow_zero, mul_one, Rat.den_natCast]

/-! ### Injectivity of the number-to-string conversion -/

theorem natToChars_cons (n : Nat) :
    ∃ c cs, natToChars n = c :: cs ∧ c.isDigit = true := by
  cases h : natToChars n with
  | nil =>
    exfalso
    rw [natToChars, List.map_eq_nil_iff] at h
    exact natDigits_ne_nil h
  | cons c cs =>
    exact ⟨c, cs, rfl, mem_natToChars_isDigit c (h ▸ List.mem_cons_self c cs)⟩

theorem absToChars_head_digit (a : ℚ) :
    ∃ c cs, absToChars a = c :: cs ∧ c.isDigit = true := by
  rw [absToChars]
  cases hfe : findExp a with
  | none =>
    dsimp only
    obtain ⟨c, cs, hc, hd⟩ := natToChars_cons a.num.natAbs
    rw [hc]
    exact ⟨c, cs ++ '/' :: natToChars a.den, List.cons_append .., hd⟩
  | some k =>
    cases k with
    | zero => exact natToChars_cons a.num.natAbs
    | succ k =>
      dsimp only
      obtain ⟨c, cs, hc, hd⟩ :=
        natToChars_cons ((a * 10 ^ (k + 1)).num.natAbs / 10 ^ (k + 1))
      rw [hc]
      exact ⟨c, cs ++ '.' :: padFrac (k + 1) ((a * 10 ^ (k + 1)).num.natAbs % 10 ^ (k + 1)),
        List.cons_append .., hd⟩

theorem notMem_natToChars_dot (n : Nat) : '.' ∉ natToChars n := fun h =>
  isDigit_ne_dot (mem_natToChars_isDigit _ h) rfl

theorem us_notMem_absToChars (a : ℚ) : '_' ∉ absToChars a := by
  rw [absToChars]
  cases hfe : findExp a with
  | none =>
    intro h
    rcases List.mem_append.mp h with h | h
    · exact isDigit_ne_us (mem_natToChars_isDigit _ h) rfl
    · rcases List.mem_cons.mp h with h | h
      · exact absurd h (by decide)
      · exact isDigit_ne_us (mem_natToChars_isDigit _ h) rfl
  | some k =>
    cases k with
    | zero => exact fun h => isDigit_ne_us (mem_natToChars_isDigit _ h) rfl
    | succ k =>
      intro h
      rcases List.mem_append.mp h with h | h
      · exact isDigit_ne_us (mem_natToChars_isDigit _ h) rfl
      · rcases List.mem_cons.mp h with h | h
        · exact absurd h (by decide)
        · exact isDigit_ne_us (mem_padFrac_isDigit _ h) rfl

theorem us_notMem_numToString (v : JSNum) : '_' ∉ (numToString v).data := by
  cases v with
  | nan => decide
  | num q =>
    simp only [numToString]
    intro hmem
    rcases List.mem_append.mp hmem with h | h
    · by_cases h1 : q < 0
      · rw [if_pos h1] at h
        rcases List.mem_cons.mp h with h | h
        · exact absurd h (by decide)
        · simp at h
      · rw [if_neg h1] at h
        simp at h
    · exact us_notMem_absToChars _ h

theorem rat_eq_natAbs_of_den_one {a : ℚ} (h0 : 0 ≤ a) (h1 : a.den = 1) :
    a = (a.num.natAbs : ℚ) := by
  have hnum : (a.num : ℚ) = a := (Rat.den_eq_one_iff a).mp h1
  have hnn : 0 ≤ a.num := Rat.num_nonneg.mpr h0
  have habs : (a.num.natAbs : ℤ) = a.num := Int.natAbs_of_nonneg hnn
  have hcast : ((a.num.natAbs : ℕ) : ℚ) = ((a.num.natAbs : ℤ) : ℚ) :=
    (Int.cast_natCast _).symm
  rw [hcast, habs, hnum]

theorem absToChars_inj {a b : ℚ} (ha0 : 0 ≤ a) (hb0 : 0 ≤ b)
    (hfa : ∃ k, (a * 10 ^ k).den = 1) (hfb : ∃ k, (b * 10 ^ k).den = 1)
    (h : absToChars a = absToChars b) : a = b := by
  obtain ⟨ka, hka⟩ := Option.isSome_iff_exists.mp (findExp_isSome hfa)
  obtain ⟨kb, hkb⟩ := Option.isSome_iff_exists.mp (findExp_isSome hfb)
  have hda := findExp_spec hka
  have hdb := findExp_spec hkb
  rw [absToChars, hka, absToChars, hkb] at h
  have hrecov : ∀ (c : ℚ) (k : Nat), 0 ≤ c → (c * 10 ^ k).den = 1 →
      c * 10 ^ k = ((c * 10 ^ k).num.natAbs : ℚ) := by
    intro c k hc hd
    exact rat_eq_natAbs_of_den_one (by positivity) hd
  cases ka with
  | zero =>
    cases kb with
    | zero =>
      dsimp only at h
      have := congrArg charsToNat h
      rw [charsToNat_natToChars, charsToNat_natToChars] at this
      have hva : a = (a.num.natAbs : ℚ) := by
        have := hrecov a 0 ha0 hda
        simpa using this
      have hvb : b = (b.num.natAbs : ℚ) := by
        have := hrecov b 0 hb0 hdb
        simpa using this
      rw [hva, hvb, this]
    | succ kb =>
      exfalso
      dsimp only at h
      have hdot : '.' ∈ natToChars a.num.natAbs := by
        rw [h]
        exact List.mem_append.mpr (Or.inr (List.mem_cons_self _ _))
      exact notMem_natToChars_dot _ hdot
  | succ ka =>
    cases kb with
    | zero =>
      exfalso
      dsimp only at h
      have hdot : '.' ∈ natToChars b.num.natAbs := by
        rw [← h]
        exact List.mem_append.mpr (Or.inr (List.mem_cons_self _ _))
      exact notMem_natToChars_dot _ hdot
    | succ kb =>
      dsimp only at h
      obtain ⟨hI, hF⟩ := append_cons_inj_left h (notMem_natToChars_dot _)
        (notMem_natToChars_dot _)
      set na := (a * 10 ^ (ka + 1)).num.natAbs with hna
      set nb := (b * 10 ^ (kb + 1)).num.natAbs with hnb
      have hmoda : na % 10 ^ (ka + 1) < 10 ^ (ka + 1) :=
        Nat.mod_lt _ (Nat.pos_pow_of_pos _ (by omega))
      have hmodb : nb % 10 ^ (kb + 1) < 10 ^ (kb + 1) :=
        Nat.mod_lt _ (Nat.pos_pow_of_pos _ (by omega))
      have hlen := congrArg List.length hF
      rw [padFrac_length (by omega) hmoda, padFrac_length (by omega) hmodb] at hlen
      have hkk : ka = kb := by omega
      subst hkk
      have hip := congrArg charsToNat hI
      rw [charsToNat_natToChars, charsToNat_natToChars] at hip
      have hfr := congrArg charsToNat hF
      rw [charsToNat_padFrac, charsToNat_padFrac] at hfr
      have hn : na = nb := by
        conv_lhs => rw [← Nat.div_add_mod na (10 ^ (ka + 1))]
        conv_rhs => rw [← Nat.div_add_mod nb (10 ^ (ka + 1))]
        rw [hip, hfr]
      have hva := hrecov a (ka + 1) ha0 hda
      have hvb := hrecov b (ka + 1) hb0 hdb
      have hpow : ((10 : ℚ)) ^ (ka + 1) ≠ 0 := by positivity
      have : a * 10 ^ (ka + 1) = b * 10 ^ (ka + 1) := by
        rw [hva, hvb, ← hna, ← hnb, hn]
      exact mul_right_cancel₀ hpow this

theorem numToString_inj {v w : JSNum} (hv : FinDecP v) (hw : FinDecP w)
    (h : numToString v = numToString w) : v = w := by
  have hdata := congrArg String.data h
  cases v with
  | nan =>
    cases w with
    | nan => rfl
    | num q =>
      exfalso
      obtain ⟨c, cs, hc, hd⟩ := absToChars_head_digit |q|
      simp only [numToString] at hdata
      rw [hc] at hdata
      by_cases h1 : q < 0
      · rw [if_pos h1] at hdata
        simp only [List.cons_append, List.nil_append] at hdata
        have : 'N' = '-' := by
          have := congrArg (fun l => l.headD ' ') hdata
          simp at this
        exact absurd this (by decide)
      · rw [if_neg h1] at hdata
        simp only [List.nil_append] at hdata
        have hcN : 'N' = c := by
          have := congrArg (fun l => l.headD ' ') hdata
          simpa using this
        exact isDigit_ne_upperN hd (by rw [← hcN])
  | num q =>
    cases w with
    | nan =>
      exfalso
      obtain ⟨c, cs, hc, hd⟩ := absToChars_head_digit |q|
      simp only [numToString] at hdata
      rw [hc] at hdata
      by_cases h1 : q < 0
      · rw [if_pos h1] at hdata
        simp only [List.cons_append, List.nil_append] at hdata
        have : '-' = 'N' := by
          have := congrArg (fun l => l.headD ' ') hdata
          simp at this
        exact absurd this (by decide)
      · rw [if_neg h1] at hdata
        simp only [List.nil_append] at hdata
        have hcN : c = 'N' := by
          have := congrArg (fun l => l.headD ' ') hdata
          simpa using this
        exact isDigit_ne_upperN hd hcN
    | num q' =>
      simp only [FinDecP] at hv hw
      simp only [numToString] at hdata
      obtain ⟨c, cs, hc, hd⟩ := absToChars_head_digit |q|
      obtain ⟨c', cs', hc', hd'⟩ := absToChars_head_digit |q'|
      have habs : |q| = |q'| := by
        by_cases h1 : q < 0 <;> by_cases h2 : q' < 0
        · rw [if_pos h1, if_pos h2] at hdata
          simp only [List.cons_append, List.nil_append, List.cons.injEq,
            true_and] at hdata
          exact absToChars_inj (abs_nonneg q) (abs_nonneg q') hv hw hdata
        · exfalso
          rw [if_pos h1, if_neg h2, hc'] at hdata
          simp only [List.cons_append, List.nil_append, List.cons.injEq] at hdata
          exact isDigit_ne_dash hd' (by rw [← hdata.1])
        · exfalso
          rw [if_neg h1, if_pos h2, hc] at hdata
          simp only [List.cons_append, List.nil_append, List.cons.injEq] at hdata
          exact isDigit_ne_dash hd (by rw [hdata.1])
        · rw [if_neg h1, if_neg h2] at hdata
          simp only [List.nil_append] at hdata
          exact absToChars_inj (abs_nonneg q) (abs_nonneg q') hv hw hdata
      by_cases h1 : q < 0 <;> by_cases h2 : q' < 0
      · rw [abs_of_neg h1, abs_of_neg h2] at habs
        rw [show q = q' from by linarith]
      · exfalso
        rw [if_pos h1, if_neg h2, hc, hc'] at hdata
        simp only [List.cons_append, List.nil_append, List.cons.injEq] at hdata
        exact isDigit_ne_dash hd' (by rw [← hdata.1])
      · exfalso
        rw [if_neg h1, if_pos h2, hc, hc'] at hdata
        simp only [List.cons_append, List.nil_append, List.cons.injEq] at hdata
        exact isDigit_ne_dash hd (by rw [hdata.1])
      · rw [abs_of_nonneg (not_lt.mp h1), abs_of_nonneg (not_lt.mp h2)] at habs
        rw [habs]

/-! ### Whitespace splitting -/

theorem isDigit_not_ws {c : Char} (h : c.isDigit = true) : isWsChar c = false := by
  by_contra hw
  have hw' : isWsChar c = true := by
    cases hb : isWsChar c
    · exact absurd hb hw
    · rfl
  simp only [isWsChar, Bool.or_eq_true, beq_iff_eq] at hw'
  rcases hw' with ((((rfl | rfl) | rfl) | rfl) | rfl) | rfl <;> exact absurd h (by decide)

theorem wordsAux_all_ws :
    ∀ (l : List Char), (∀ c ∈ l, isWsChar c = true) →
      ∀ acc : List Char, wordsAux l acc = if acc.isEmpty then [] else [acc.reverse] := by
  intro l
  induction l with
  | nil => intro _ acc; rfl
  | cons c t ih =>
    intro hl acc
    simp only [wordsAux]
    rw [if_pos (hl c (List.mem_cons_self c t))]
    have ht := ih fun x hx => hl x (List.mem_cons_of_mem _ hx)
    by_cases hacc : acc.isEmpty
    · rw [if_pos hacc, if_pos hacc, ht []]
      rfl
    · rw [if_neg hacc, if_neg hacc, ht []]
      rfl

theorem wordsAux_nonws_run :
    ∀ (w : List Char), (∀ c ∈ w, isWsChar c = false) →
      ∀ (rest acc : List Char),
        wordsAux (w ++ rest) acc = wordsAux rest (w.reverse ++ acc) := by
  intro w
  induction w with
  | nil => intro _ rest acc; simp
  | cons c t ih =>
    intro hw rest acc
    simp only [List.cons_append, wordsAux, List.append_eq]
    rw [if_neg (by simp [hw c (List.mem_cons_self c t)])]
    rw [ih (fun x hx => hw x (List.mem_cons_of_mem _ hx)) rest (c :: acc)]
    rw [List.reverse_cons, List.append_assoc]
    rfl

theorem wordsAux_word_break {w : List Char} (hw : ∀ c ∈ w, isWsChar c = false)
    (hne : w ≠ []) {sp : Char} (hsp : isWsChar sp = true) (rest : List Char) :
    wordsAux (w ++ sp :: rest) [] = w :: wordsAux rest [] := by
  rw [wordsAux_nonws_run w hw (sp :: rest) []]
  simp only [wordsAux]
  rw [if_pos hsp]
  have hne' : (w.reverse ++ []).isEmpty = false := by
    rw [List.append_nil]
    cases hwr : w.reverse with
    | nil => exact absurd (List.reverse_eq_nil_iff.mp hwr) hne
    | cons x xs => rfl
  rw [if_neg (fun hcontra => by rw [hne'] at hcontra; exact Bool.false_ne_true hcontra)]
  simp

theorem wordsAux_append_all_ws :
    ∀ (l tail : List Char), (∀ c ∈ tail, isWsChar c = true) →
      ∀ acc, wordsAux (l ++ tail) acc = wordsAux l acc := by
  intro l
  induction l with
  | nil =>
    intro tail h acc
    rw [List.nil_append, wordsAux_all_ws tail h acc]
    rfl
  | cons c t ih =>
    intro tail h acc
    simp only [List.cons_append, wordsAux, List.append_eq]
    by_cases hc : isWsChar c
    · rw [if_pos hc, if_pos hc]
      by_cases hacc : acc.isEmpty
      · rw [if_pos hacc, if_pos hacc, ih tail h []]
      · rw [if_neg hacc, if_neg hacc, ih tail h []]
    · rw [if_neg hc, if_neg hc, ih tail h (c :: acc)]

theorem wordsAux_dropWhile_ws (l : List Char) :
    wordsAux (l.dropWhile isWsChar) [] = wordsAux l [] := by
  induction l with
  | nil => rfl
  | cons c t ih =>
    rw [List.dropWhile_cons]
    by_cases hc : isWsChar c
    · rw [if_pos hc, ih]
      simp only [wordsAux]
      rw [if_pos hc, if_pos (by rfl)]
    · rw [if_neg hc]

theorem splitWs_jsTrim (s : String) : splitWs (jsTrim s) = splitWs s := by
  rw [splitWs, splitWs]
  congr 1
  show wordsAux (jsTrim s).data [] = wordsAux s.data []
  have hstep1 : wordsAux (s.data.dropWhile isWsChar) [] = wordsAux s.data [] :=
    wordsAux_dropWhile_ws s.data
  set u := s.data.dropWhile isWsChar with hu
  have hdecomp : u = (u.reverse.dropWhile isWsChar).reverse ++
      (u.reverse.takeWhile isWsChar).reverse := by
    have := List.takeWhile_append_dropWhile (p := isWsChar) (l := u.reverse)
    have h2 := congrArg List.reverse this
    rw [List.reverse_append, List.reverse_reverse] at h2
    exact h2.symm
  have htrail : ∀ c ∈ (u.reverse.takeWhile isWsChar).reverse, isWsChar c = true := by
    intro c hc
    rw [List.mem_reverse] at hc
    exact List.mem_takeWhile_imp hc
  have hstep2 : wordsAux u [] = wordsAux (u.reverse.dropWhile isWsChar).reverse [] := by
    conv_lhs => rw [hdecomp]
    exact wordsAux_append_all_ws _ _ htrail []
  have hdata : (jsTrim s).data = (u.reverse.dropWhile isWsChar).reverse := rfl
  rw [hdata, ← hstep2, hstep1]

/-! ### The date-time validation gate and the token list -/

theorem startsWithDateTime_decomp {cs : List Char} (h : startsWithDateTime cs = true) :
    ∃ (ten rest : List Char) (sp : Char),
      cs = ten ++ sp :: rest ∧ ten.length = 10 ∧
      (∀ c ∈ ten, c.isDigit = true ∨ c = '.') ∧ isWsChar sp = true := by
  match cs, h with
  | a :: b :: c :: d :: p1 :: e :: f :: p2 :: g :: h10 :: rest0, h => ?_
  simp only [startsWithDateTime, Bool.and_eq_true, beq_iff_eq] at h
  obtain ⟨⟨⟨⟨⟨⟨⟨⟨⟨⟨ha, hb⟩, hc⟩, hd⟩, hp1⟩, he⟩, hf⟩, hp2⟩, hg⟩, hh⟩, hrest⟩ := h
  rcases rest0 with _ | ⟨sp, rest⟩
  · exact absurd hrest (by simp [wsThenTime])
  · simp only [wsThenTime, Bool.and_eq_true] at hrest
    refine ⟨[a, b, c, d, p1, e, f, p2, g, h10], rest, sp, rfl, rfl, ?_, hrest.1⟩
    intro x hx
    simp only [List.mem_cons, List.not_mem_nil, or_false] at hx
    rcases hx with rfl | rfl | rfl | rfl | rfl | rfl | rfl | rfl | rfl | rfl
    · exact Or.inl ha
    · exact Or.inl hb
    · exact Or.inl hc
    · exact Or.inl hd
    · exact Or.inr hp1
    · exact Or.inl he
    · exact Or.inl hf
    · exact Or.inr hp2
    · exact Or.inl hg
    · exact Or.inl hh

theorem splitWs_of_dateTime {line : String} (h : startsWithDateTime line.data = true) :
    ∃ (ten : List Char) (more : List String),
      splitWs line = ⟨ten⟩ :: more ∧ ten.length = 10 ∧ '_' ∉ ten := by
  obtain ⟨ten, rest, sp, hcs, hlen, hmem, hsp⟩ := startsWithDateTime_decomp h
  have hnws : ∀ c ∈ ten, isWsChar c = false := by
    intro c hc
    rcases hmem c hc with hd | rfl
    · exact isDigit_not_ws hd
    · rfl
  have hne : ten ≠ [] := by
    intro hnil
    rw [hnil] at hlen
    simp at hlen
  refine ⟨ten, (wordsAux rest []).map fun l => (⟨l⟩ : String), ?_, hlen, ?_⟩
  · rw [splitWs, hcs, wordsAux_word_break hnws hne hsp rest]
    rfl
  · intro hus
    rcases hmem '_' hus with hd | hdot
    · exact absurd hd (by decide)
    · exact absurd hdot (by decide)

/-! ### Inversion of the per-line parsers -/

theorem stringDataInj {s t : String} (h : s.data = t.data) : s = t := by
  cases s
  cases t
  cases h
  rfl

theorem parseLineServer_none_of_gate {line : String}
    (h : startsWithDateTime line.data = false) : parseLineServer line = none := by
  rw [parseLineServer, h]
  rfl

theorem parseLineServer_inv {line : String} {r : Earthquake}
    (h : parseLineServer line = some r) :
    startsWithDateTime line.data = true ∧
    10 ≤ (splitWs (jsTrim line)).length ∧
    r.date = (splitWs (jsTrim line)).getD 0 "" ∧
    r.time = (splitWs (jsTrim line)).getD 1 "" ∧
    r.latitude = jsParseFloat ((splitWs (jsTrim line)).getD 2 "") ∧
    r.longitude = jsParseFloat ((splitWs (jsTrim line)).getD 3 "") ∧
    r.id = mkId r.date r.time r.latitude r.longitude := by
  rw [parseLineServer] at h
  by_cases hsw : startsWithDateTime line.data
  · rw [hsw] at h
    simp only [Bool.not_true] at h
    rw [if_neg (by decide)] at h
    by_cases hlen : (splitWs (jsTrim line)).length < 10
    · rw [if_pos hlen] at h
      cases h
    · rw [if_neg hlen] at h
      have hr := Option.some.inj h
      refine ⟨hsw, by omega, ?_, ?_, ?_, ?_, ?_⟩ <;> rw [← hr]
  · have hsw' : startsWithDateTime line.data = false := by
      cases hb : startsWithDateTime line.data
      · rfl
      · exact absurd hb hsw
    rw [hsw'] at h
    simp only [Bool.not_false] at h
    rw [if_pos trivial] at h
    cases h

theorem parseLineClient_inv {line : String} {r : Earthquake}
    (h : parseLineClient line = some r) :
    10 ≤ (splitWs (jsTrim line)).length ∧
    r.id = mkId r.date r.time r.latitude r.longitude := by
  rw [parseLineClient] at h
  by_cases hlen : (splitWs (jsTrim line)).length < 10
  · rw [if_pos hlen] at h
    cases h
  · rw [if_neg hlen] at h
    have hr := Option.some.inj h
    refine ⟨by omega, ?_⟩
    rw [← hr]

theorem parseLineServer_isSome {line : String}
    (hsw : startsWithDateTime line.data = true)
    (hlen : 10 ≤ (splitWs (jsTrim line)).length) :
    (parseLineServer line).isSome = true := by
  rw [parseLineServer, hsw]
  simp only [Bool.not_true]
  rw [if_neg (by decide)]
  rw [if_neg (by omega : ¬(splitWs (jsTrim line)).length < 10)]
  rfl

theorem parseLineClient_isSome {line : String}
    (hlen : 10 ≤ (splitWs (jsTrim line)).length) :
    (parseLineClient line).isSome = true := by
  rw [parseLineClient]
  rw [if_neg (by omega : ¬(splitWs (jsTrim line)).length < 10)]
  rfl

theorem parseLineClient_revize {line : String} {parts : List String}
    (hp : parts = splitWs (jsTrim line)) (hlen : 10 ≤ parts.length)
    (hrev : startsWithStr (jsTrim (parts.getD (parts.length - 1) "")) "REVIZE" = true)
    (hpar : startsWithStr (parts.getD (parts.length - 2) "") "(" = true) :
    ∃ r, parseLineClient line = some r ∧
      r.location = jsTrim (joinSp ((parts.drop 8).take (parts.length - 10))) ∧
      r.solutionQuality = jsTrim (parts.getD (parts.length - 1) "") := by
  subst hp
  rw [parseLineClient]
  rw [if_neg (by omega : ¬(splitWs (jsTrim line)).length < 10)]
  refine ⟨_, rfl, ?_, rfl⟩
  dsimp only
  rw [hrev, hpar]
  rw [if_pos (by decide)]
  have harith : (splitWs (jsTrim line)).length - 3 + 1 - 8 =
      (splitWs (jsTrim line)).length - 10 := by omega
  rw [harith]

theorem parseLineServer_revize {line : String} {parts : List String}
    (hsw : startsWithDateTime line.data = true)
    (hp : parts = splitWs (jsTrim line)) (hlen : 10 ≤ parts.length)
    (hrev : startsWithStr (jsTrim (parts.getD (parts.length - 1) "")) "REVIZE" = true)
    (hpar : startsWithStr (parts.getD (parts.length - 2) "") "(" = true) :
    ∃ r, parseLineServer line = some r ∧
      r.location = jsTrim (joinSp ((parts.drop 8).take (parts.length - 10))) ∧
      r.solutionQuality = jsTrim (parts.getD (parts.length - 1) "") := by
  subst hp
  rw [parseLineServer, hsw]
  simp only [Bool.not_true]
  rw [if_neg (by decide)]
  rw [if_neg (by omega : ¬(splitWs (jsTrim line)).length < 10)]
  refine ⟨_, rfl, ?_, rfl⟩
  dsimp only
  rw [hrev, hpar]
  rw [if_pos (by decide)]
  have harith : (splitWs (jsTrim line)).length - 3 + 1 - 8 =
      (splitWs (jsTrim line)).length - 10 := by omega
  rw [harith]

/-! ### Shape of the records produced by the server-side line parser -/

theorem parseEarthquakeLines_shape {ds : String} {r : Earthquake}
    (h : r ∈ parseEarthquakeLines ds) :
    r.date.data.length = 10 ∧ '_' ∉ r.date.data ∧
    FinDecP r.latitude ∧ FinDecP r.longitude ∧
    r.id = r.date ++ "_" ++ r.time ++ "_" ++
      numToString r.latitude ++ "_" ++ numToString r.longitude := by
  rw [parseEarthquakeLines] at h
  obtain ⟨line, _, hsome⟩ := List.mem_filterMap.mp h
  obtain ⟨hsw, _, hdate, _, hlat, hlon, hid⟩ := parseLineServer_inv hsome
  obtain ⟨ten, more, hsplit, hlen10, hus⟩ := splitWs_of_dateTime hsw
  have hsplit' : splitWs (jsTrim line) = ⟨ten⟩ :: more := by
    rw [splitWs_jsTrim]
    exact hsplit
  have hdate' : r.date = ⟨ten⟩ := by rw [hdate, hsplit']; rfl
  refine ⟨?_, ?_, ?_, ?_, ?_⟩
  · rw [hdate']; exact hlen10
  · rw [hdate']; exact hus
  · rw [hlat]; exact finDecP_jsParseFloat _
  · rw [hlon]; exact finDecP_jsParseFloat _
  · rw [hid]; rfl

theorem mkId_inj {d t : String} {la lo : JSNum} {d' t' : String} {la' lo' : JSNum}
    (hd : d.data.length = 10) (hd' : d'.data.length = 10)
    (hfa : FinDecP la) (hfo : FinDecP lo) (hfa' : FinDecP la') (hfo' : FinDecP lo')
    (h : d ++ "_" ++ t ++ "_" ++ numToString la ++ "_" ++ numToString lo =
         d' ++ "_" ++ t' ++ "_" ++ numToString la' ++ "_" ++ numToString lo') :
    d = d' ∧ t = t' ∧ la = la' ∧ lo = lo' := by
  have hdata := congrArg String.data h
  simp only [String.data_append] at hdata
  simp only [List.append_assoc, List.cons_append, List.nil_append] at hdata
  obtain ⟨hdd, hrest⟩ := List.append_inj hdata (by rw [hd, hd'])
  simp only [List.cons.injEq, true_and] at hrest
  have hassoc : ∀ (a b c : List Char),
      a ++ '_' :: (b ++ '_' :: c) = (a ++ '_' :: b) ++ '_' :: c := by
    intro a b c
    rw [List.append_assoc, List.cons_append]
  rw [hassoc, hassoc] at hrest
  obtain ⟨hAB, hlonD⟩ := append_cons_inj_right hrest
    (us_notMem_numToString lo) (us_notMem_numToString lo')
  obtain ⟨httD, hlatD⟩ := append_cons_inj_right hAB
    (us_notMem_numToString la) (us_notMem_numToString la')
  refine ⟨stringDataInj hdd, stringDataInj httD, ?_, ?_⟩
  · exact numToString_inj hfa hfa' (stringDataInj hlatD)
  · exact numToString_inj hfo hfo' (stringDataInj hlonD)

/-! ### The locator when no line satisfies the candidate predicate -/

theorem splitNlC_ne_nil (cs : List Char) : splitNlC cs ≠ [] := by
  induction cs with
  | nil => simp [splitNlC]
  | cons c t ih =>
    rw [splitNlC]
    by_cases hc : c == '\n'
    · rw [if_pos hc]; simp
    · rw [if_neg hc]
      cases h : splitNlC t with
      | nil => simp
      | cons w ws => simp

theorem mem_splitNlC_cons {c : Char} {cs : List Char} {l : List Char}
    (h : l ∈ splitNlC cs) : ∃ l' ∈ splitNlC (c :: cs), l.IsSuffix l' := by
  rw [splitNlC]
  by_cases hc : c == '\n'
  · rw [if_pos hc]
    exact ⟨l, List.mem_cons_of_mem _ h, List.suffix_refl l⟩
  · rw [if_neg hc]
    cases hs : splitNlC cs with
    | nil => exact absurd hs (splitNlC_ne_nil cs)
    | cons w ws =>
      rw [hs] at h
      rcases List.mem_cons.mp h with rfl | hmem
      · exact ⟨c :: l, List.mem_cons_self .., ⟨[c], rfl⟩⟩
      · exact ⟨l, List.mem_cons_of_mem _ hmem, List.suffix_refl l⟩

theorem mem_splitNlC_drop (k : Nat) :
    ∀ (cs : List Char) {l : List Char}, l ∈ splitNlC (cs.drop k) →
      ∃ l' ∈ splitNlC cs, l.IsSuffix l' := by
  induction k with
  | zero => intro cs l h; exact ⟨l, by simpa using h, List.suffix_refl l⟩
  | succ k ih =>
    intro cs l h
    cases cs with
    | nil => exact ⟨l, by simpa using h, List.suffix_refl l⟩
    | cons c t =>
      rw [List.drop_succ_cons] at h
      obtain ⟨l', hl', hsuf⟩ := ih t h
      obtain ⟨l'', hl'', hsuf'⟩ := mem_splitNlC_cons (c := c) hl'
      exact ⟨l'', hl'', hsuf.trans hsuf'⟩

theorem hasDateC_append_left (pre : List Char) {l : List Char}
    (h : hasDateC l = true) : hasDateC (pre ++ l) = true := by
  induction pre with
  | nil => simpa using h
  | cons c t ih =>
    rw [List.cons_append, hasDateC, ih]
    simp

theorem hasInfixC_append_left (pat : List Char) (pre : List Char) {l : List Char}
    (h : hasInfixC pat l = true) : hasInfixC pat (pre ++ l) = true := by
  induction pre with
  | nil => simpa using h
  | cons c t ih =>
    rw [List.cons_append, hasInfixC, ih]
    simp

theorem candidateLine_of_suffix {l l' : List Char} (hsuf : l.IsSuffix l')
    (h : candidateLine ⟨l⟩ = true) : candidateLine ⟨l'⟩ = true := by
  obtain ⟨pre, rfl⟩ := hsuf
  rw [candidateLine] at h ⊢
  simp only [Bool.and_eq_true] at h ⊢
  exact ⟨hasDateC_append_left pre h.1, hasInfixC_append_left _ pre h.2⟩

theorem candidateLines_drop_empty {raw : String}
    (hyp : ∀ l ∈ splitLines raw, candidateLine l = false) (k : Nat) :
    candidateLines ⟨raw.data.drop k⟩ = [] := by
  rw [candidateLines, List.filter_eq_nil_iff]
  intro a ha
  have ha' : a ∈ splitLines ⟨raw.data.drop k⟩ := List.mem_of_mem_filter ha
  obtain ⟨lc, hlc, rfl⟩ := List.mem_map.mp ha'
  obtain ⟨l', hl', hsuf⟩ := mem_splitNlC_drop k raw.data hlc
  intro hc
  have : candidateLine ⟨l'⟩ = true := candidateLine_of_suffix hsuf hc
  have hmem : (⟨l'⟩ : String) ∈ splitLines raw := List.mem_map.mpr ⟨l', hl', rfl⟩
  rw [hyp _ hmem] at this
  cases this

theorem tryAltHeaders_empty {raw : String}
    (hyp : ∀ l ∈ splitLines raw, candidateLine l = false) :
    ∀ hs : List String, tryAltHeaders hs raw = [] := by
  intro hs
  induction hs with
  | nil => rfl
  | cons h t ih =>
    rw [tryAltHeaders]
    split
    · exact ih
    · rename_i idx heq
      dsimp only
      split
      · exact ih
      · rename_i j hj
        split
        · rename_i hlen
          have hempty : candidateLines (subFrom raw (j + idx)) = [] :=
            candidateLines_drop_empty hyp (j + idx)
          rw [hempty] at hlen
          simp at hlen
        · exact ih

theorem specHeaderScanLines_empty {raw : String}
    (hyp : ∀ l ∈ splitLines raw, candidateLine l = false) :
    ∀ hs : List String, specHeaderScanLines hs raw = [] := by
  intro hs
  induction hs with
  | nil => rfl
  | cons h t ih =>
    rw [specHeaderScanLines]
    split
    · exact ih
    · rename_i idx heq
      split
      · rfl
      · rename_i j hj
        exact candidateLines_drop_empty hyp (idx + j)

theorem candidateLines_subFrom_empty {raw : String}
    (hyp : ∀ l ∈ splitLines raw, candidateLine l = false) (A X : Nat) :
    candidateLines (subFrom (subFrom raw A) X) = [] := by
  have hsub : subFrom (subFrom raw A) X = (⟨raw.data.drop (A + X)⟩ : String) := by
    show (⟨(raw.data.drop A).drop X⟩ : String) = _
    rw [List.drop_drop]
  rw [hsub]
  exact candidateLines_drop_empty hyp (A + X)

theorem mainHeaderScan_empty {raw : String}
    (hyp : ∀ l ∈ splitLines raw, candidateLine l = false) :
    mainHeaderScan raw = [] := by
  rw [mainHeaderScan]
  split
  · exact tryAltHeaders_empty hyp alternateHeaders
  · rename_i hIdx heq
    dsimp only
    split
    · rfl
    · rename_i sIdx hsep
      split
      · rename_i hlen
        rw [candidateLines_subFrom_empty hyp _ _] at hlen
        simp at hlen
      · rfl

theorem serverParse_empty_of_no_candidate {raw : String}
    (hyp : ∀ l ∈ splitLines raw, candidateLine l = false) :
    parseEarthquakeDataServer raw = [] := by
  rw [parseEarthquakeDataServer]
  have hfind : (splitLines raw).find? candidateLine = none :=
    List.find?_eq_none.mpr fun x hx => by rw [hyp x hx]; simp
  rw [hfind]
  exact mainHeaderScan_empty hyp

/-! ### The acquisition chain -/

theorem fetchWithPublicProxyE_ok (t : Transports) :
    fetchWithPublicProxyE t = .ok (fetchWithPublicProxyPure t) := by
  rw [fetchWithPublicProxyE, fetchWithPublicProxyPure]
  cases t.publicProxy with
  | netError => rfl
  | response ok body =>
    cases ok with
    | false => rfl
    | true =>
      show jsTry
          (if ((parseEarthquakeDataClient body).length == 0) = true
            then (pure fallbackEarthquakeData : Except String (List Earthquake))
            else pure (parseEarthquakeDataClient body))
          (fun _ => pure fallbackEarthquakeData) =
        .ok (if ((parseEarthquakeDataClient body).length == 0) = true
          then fallbackEarthquakeData else parseEarthquakeDataClient body)
      cases hlen : (parseEarthquakeDataClient body).length == 0 <;> rfl

theorem fetchWithProxyE_ok (t : Transports) :
    fetchWithProxyE t = .ok (fetchWithProxyPure t) := by
  rw [fetchWithProxyE, fetchWithProxyPure]
  cases t.localProxy with
  | netError => exact fetchWithPublicProxyE_ok t
  | response ok body =>
    cases ok with
    | false =>
      rw [fetchWithPublicProxyE_ok t]
      rfl
    | true =>
      show jsTry
          (if ((parseEarthquakeDataClient body).length == 0) = true
            then fetchWithPublicProxyE t
            else pure (parseEarthquakeDataClient body))
          (fun _ => fetchWithPublicProxyE t) =
        .ok (if ((parseEarthquakeDataClient body).length == 0) = true
          then fetchWithPublicProxyPure t else parseEarthquakeDataClient body)
      cases hlen : (parseEarthquakeDataClient body).length == 0
      · rfl
      · rw [fetchWithPublicProxyE_ok t]
        rfl

theorem fetchEarthquakeDataE_ok (t : Transports) :
    fetchEarthquakeDataE t = .ok (fetchEarthquakeDataPure t) := by
  rw [fetchEarthquakeDataE, fetchEarthquakeDataPure]
  cases t.direct with
  | netError => exact fetchWithProxyE_ok t
  | response ok body =>
    cases ok with
    | false =>
      rw [fetchWithProxyE_ok t]
      rfl
    | true =>
      show jsTry
          (if ((parseEarthquakeDataClient body).length == 0) = true
            then fetchWithProxyE t
            else pure (parseEarthquakeDataClient body))
          (fun _ => fetchWithProxyE t) =
        .ok (if ((parseEarthquakeDataClient body).length == 0) = true
          then fetchWithProxyPure t else parseEarthquakeDataClient body)
      cases hlen : (parseEarthquakeDataClient body).length == 0
      · rfl
      · rw [fetchWithProxyE_ok t]
        rfl

theorem stageStep_of_fails {o : FetchOutcome} (h : stageFails o)
    (next : List Earthquake) : stageStep o next = next := by
  cases o with
  | netError => rfl
  | response ok body =>
    have h' : ok = false ∨ parseEarthquakeDataClient body = [] := h
    rw [stageStep]
    rcases h' with rfl | hp
    · rfl
    · cases ok with
      | false => rfl
      | true =>
        rw [hp]
        rfl

/-! ### Per-line emission in order -/

theorem strEta (s : String) : (⟨s.data⟩ : String) = s := by
  cases s
  rfl

theorem splitNlC_append {xs : List Char} (h : '\n' ∉ xs) (ys : List Char) :
    splitNlC (xs ++ '\n' :: ys) = xs :: splitNlC ys := by
  induction xs with
  | nil =>
    rw [List.nil_append, splitNlC, if_pos (by decide)]
  | cons c t ih =>
    have hc : c ≠ '\n' := fun hh => h (hh ▸ List.mem_cons_self c t)
    rw [List.cons_append, splitNlC,
      if_neg (by simp [hc]),
      ih fun hm => h (List.mem_cons_of_mem _ hm)]

theorem splitNlC_single {xs : List Char} (h : '\n' ∉ xs) : splitNlC xs = [xs] := by
  induction xs with
  | nil => rfl
  | cons c t ih =>
    have hc : c ≠ '\n' := fun hh => h (hh ▸ List.mem_cons_self c t)
    rw [splitNlC, if_neg (by simp [hc]), ih fun hm => h (List.mem_cons_of_mem _ hm)]

theorem clientParse_eq_filterMap (raw : String) :
    parseEarthquakeDataClient raw = (candidateLines raw).filterMap parseLineClient := by
  rw [parseEarthquakeDataClient]
  split
  · rename_i hzero
    have hz : (candidateLines raw).length = 0 := beq_iff_eq.mp hzero
    rw [List.length_eq_zero.mp hz]
    rfl
  · rfl

theorem mem_parseEarthquakeDataClient {raw : String} {r : Earthquake}
    (h : r ∈ parseEarthquakeDataClient raw) :
    ∃ line, parseLineClient line = some r := by
  rw [parseEarthquakeDataClient] at h
  split at h
  · simp at h
  · obtain ⟨line, _, hsome⟩ := List.mem_filterMap.mp h
    exact ⟨line, hsome⟩

/-! ### The claims -/

set_option maxRecDepth 4000 in
unseal Rat.add Rat.mul Rat.sub Rat.inv in
/-- C1: the claim states that in both pipelines a line ending in an ordinary
quality code has exactly the one last token excluded from `location`.  The
code violates this: on the spec's own example line the server-side
`parseEarthquakeLines` keeps the trailing quality token inside `location`
(yielding `"SOME PLACE NAME C"`), contradicting its own comment ("columns
between magnitude and solution quality") and the client-side parser, which
excludes it as the claim says. -/
theorem claim_C1_code_bug :
    (parseEarthquakeLines
        "2024.03.15 14:23:11 38.4521 27.1234 7.3 -.- 3.2 -.- SOME PLACE NAME  C").map
        Earthquake.location = ["SOME PLACE NAME C"] ∧
    (parseEarthquakeLines
        "2024.03.15 14:23:11 38.4521 27.1234 7.3 -.- 3.2 -.- SOME PLACE NAME  C").map
        Earthquake.solutionQuality = ["C"] ∧
    (parseEarthquakeDataClient
        "2024.03.15 14:23:11 38.4521 27.1234 7.3 -.- 3.2 -.- SOME PLACE NAME  C").map
        Earthquake.location = ["SOME PLACE NAME"] := by
  refine ⟨by decide, by decide, by decide⟩

set_option maxRecDepth 4000 in
unseal Rat.add Rat.mul Rat.sub Rat.inv in
/-- C2: on the spec's example line the client-side `parseEarthquakeData`
produces exactly the record the claim demands, but the server-side
`parseEarthquakeLines` produces a different record (the location keeps the
trailing quality token) — the same slip as C1. -/
theorem claim_C2_code_bug :
    parseEarthquakeDataClient
        "2024.03.15 14:23:11 38.4521 27.1234 7.3 -.- 3.2 -.- SOME PLACE NAME  C" =
      [{ date := "2024.03.15", time := "14:23:11", latitude := .num (384521/10000),
         longitude := .num (271234/10000), depth := .num (73/10), magnitudeMD := none,
         magnitudeML := some (.num (16/5)), magnitudeMw := none,
         location := "SOME PLACE NAME", solutionQuality := "C",
         id := "2024.03.15_14:23:11_38.4521_27.1234" }] ∧
    parseEarthquakeLines
        "2024.03.15 14:23:11 38.4521 27.1234 7.3 -.- 3.2 -.- SOME PLACE NAME  C" =
      [{ date := "2024.03.15", time := "14:23:11", latitude := .num (384521/10000),
         longitude := .num (271234/10000), depth := .num (73/10), magnitudeMD := none,
         magnitudeML := some (.num (16/5)), magnitudeMw := none,
         location := "SOME PLACE NAME C", solutionQuality := "C",
         id := "2024.03.15_14:23:11_38.4521_27.1234" }] := by
  refine ⟨by decide, by decide⟩

set_option maxRecDepth 4000 in
unseal Rat.add Rat.mul Rat.sub Rat.inv in
/-- C3 counterexample: the claim quantifies over both pipelines, but the
client-side `parseEarthquakeData` performs no start-of-line date/time test:
a line that merely contains a date pattern somewhere plus the `-.-`
sentinel is turned into a record even though it does not begin with the
date/time pattern. -/
theorem claim_C3_counterexample :
    startsWithDateTime ("A_B C 1 2 5 -.- 3.2 -.- LOC 2024.03.15" : String).data = false ∧
    (parseEarthquakeDataClient "A_B C 1 2 5 -.- 3.2 -.- LOC 2024.03.15").length = 1 := by
  refine ⟨by decide, by decide⟩

set_option maxRecDepth 4000 in
unseal Rat.add Rat.mul Rat.sub Rat.inv in
/-- C3 amended: the server-side `parseEarthquakeLines` silently skips every
line that does not begin with the date/time pattern (and conversely every
record it emits comes from a line passing that gate); the client-side
`parseEarthquakeData` does not enforce this — its candidate filter only
requires a date pattern somewhere in the line plus the `-.-` sentinel, so
such a line can still produce a record (see the counterexample). -/
theorem claim_C3_amended :
    (∀ line : String, startsWithDateTime line.data = false →
      parseLineServer line = none) ∧
    (∀ (ds : String) (r : Earthquake), r ∈ parseEarthquakeLines ds →
      ∃ line : String, startsWithDateTime line.data = true ∧
        parseLineServer line = some r) := by
  constructor
  · exact fun line h => parseLineServer_none_of_gate h
  · intro ds r h
    rw [parseEarthquakeLines] at h
    obtain ⟨line, _, hsome⟩ := List.mem_filterMap.mp h
    exact ⟨line, (parseLineServer_inv hsome).1, hsome⟩

/-- C3 amended, witness: a concrete line failing the gate is skipped. -/
theorem claim_C3_amended_witness :
    parseLineServer "hello world" = none :=
  claim_C3_amended.1 "hello world" (by decide)

/-- C4: on a line whose last token starts with `REVIZE` and whose
second-to-last token starts with `(`, both per-line parsers exclude both of
the last two tokens from `location` (which is rebuilt from tokens 8 up to
the length minus 10 count, so the parenthesized timestamp is in no field of
the record) and store the REVIZE token as `solutionQuality`; on the spec's
example ending `... PLACE NAME (14:00:00) REVIZE01` both pipelines yield
location `"PLACE NAME"` and quality `"REVIZE01"`. -/
theorem claim_C4_revize :
    (∀ (line : String) (parts : List String), parts = splitWs (jsTrim line) →
      10 ≤ parts.length →
      startsWithStr (jsTrim (parts.getD (parts.length - 1) "")) "REVIZE" = true →
      startsWithStr (parts.getD (parts.length - 2) "") "(" = true →
      (∃ r, parseLineClient line = some r ∧
        r.location = jsTrim (joinSp ((parts.drop 8).take (parts.length - 10))) ∧
        r.solutionQuality = jsTrim (parts.getD (parts.length - 1) "")) ∧
      (startsWithDateTime line.data = true →
        ∃ r, parseLineServer line = some r ∧
          r.location = jsTrim (joinSp ((parts.drop 8).take (parts.length - 10))) ∧
          r.solutionQuality = jsTrim (parts.getD (parts.length - 1) ""))) ∧
    (parseEarthquakeLines
        "2024.03.15 14:23:11 38.45 27.12 7.0 -.- 3.2 -.- PLACE NAME (14:00:00) REVIZE01").map
        (fun r => (r.location, r.solutionQuality)) = [("PLACE NAME", "REVIZE01")] ∧
    (parseEarthquakeDataClient
        "2024.03.15 14:23:11 38.45 27.12 7.0 -.- 3.2 -.- PLACE NAME (14:00:00) REVIZE01").map
        (fun r => (r.location, r.solutionQuality)) = [("PLACE NAME", "REVIZE01")] := by
  refine ⟨?_, by decide, by decide⟩
  intro line parts hp hlen hrev hpar
  exact ⟨parseLineClient_revize hp hlen hrev hpar,
    fun hsw => parseLineServer_revize hsw hp hlen hrev hpar⟩

set_option maxRecDepth 4000 in
unseal Rat.add Rat.mul Rat.sub Rat.inv in
/-- C4 witness: the general REVIZE statement instantiated on the spec's
example line. -/
theorem claim_C4_revize_witness :
    ∃ r, parseLineClient
        "2024.03.15 14:23:11 38.45 27.12 7.0 -.- 3.2 -.- PLACE NAME (14:00:00) REVIZE01" =
        some r ∧
      r.location = jsTrim (joinSp (((splitWs (jsTrim
        "2024.03.15 14:23:11 38.45 27.12 7.0 -.- 3.2 -.- PLACE NAME (14:00:00) REVIZE01")).drop 8).take
          ((splitWs (jsTrim
        "2024.03.15 14:23:11 38.45 27.12 7.0 -.- 3.2 -.- PLACE NAME (14:00:00) REVIZE01")).length - 10))) ∧
      r.solutionQuality = jsTrim ((splitWs (jsTrim
        "2024.03.15 14:23:11 38.45 27.12 7.0 -.- 3.2 -.- PLACE NAME (14:00:00) REVIZE01")).getD
          ((splitWs (jsTrim
        "2024.03.15 14:23:11 38.45 27.12 7.0 -.- 3.2 -.- PLACE NAME (14:00:00) REVIZE01")).length - 1) "") :=
  (claim_C4_revize.1
    "2024.03.15 14:23:11 38.45 27.12 7.0 -.- 3.2 -.- PLACE NAME (14:00:00) REVIZE01"
    _ rfl (by decide) (by decide) (by decide)).1

/-- C5 counterexample: a malformed numeric token (here the depth token
`xyz`) does not make the line be skipped: both parsers still emit a record
for it, with the `NaN` sentinel stored for that field, because JavaScript's
`parseFloat` returns `NaN` instead of raising (the per-line catch is never
reached). -/
theorem claim_C5_counterexample :
    (parseEarthquakeLines
        "2024.03.15 14:23:11 38.45 27.12 xyz -.- 3.2 -.- SOME PLACE NAME C").map
        Earthquake.depth = [JSNum.nan] ∧
    (parseEarthquakeDataClient
        "2024.03.15 14:23:11 38.45 27.12 xyz -.- 3.2 -.- SOME PLACE NAME C").map
        Earthquake.depth = [JSNum.nan] := by
  refine ⟨by decide, by decide⟩

/-- C5 amended: a malformed decimal token never aborts the batch and never
causes its line to be skipped; once a line passes the structural gates (the
token-count test, plus the date/time start test for the server parser) a
record is always emitted regardless of the numeric tokens' shapes, and each
line of a batch is parsed independently of the others. -/
theorem claim_C5_amended :
    (∀ line : String, 10 ≤ (splitWs (jsTrim line)).length →
      (parseLineClient line).isSome = true) ∧
    (∀ line : String, startsWithDateTime line.data = true →
      10 ≤ (splitWs (jsTrim line)).length →
      (parseLineServer line).isSome = true) ∧
    (∀ ds : String, parseEarthquakeLines ds =
      ((((splitLines ds).map jsTrim).filter fun l => l.length > 0).filterMap
        parseLineServer)) := by
  exact ⟨fun _ h => parseLineClient_isSome h,
    fun _ h1 h2 => parseLineServer_isSome h1 h2, fun _ => rfl⟩

/-- C5 amended, witness: instantiated on the malformed-depth line. -/
theorem claim_C5_amended_witness :
    (parseLineServer
      "2024.03.15 14:23:11 38.45 27.12 xyz -.- 3.2 -.- SOME PLACE NAME C").isSome = true :=
  claim_C5_amended.2.1
    "2024.03.15 14:23:11 38.45 27.12 xyz -.- 3.2 -.- SOME PLACE NAME C"
    (by decide) (by decide)

/-- C6: when no whole line of the raw text satisfies the candidate predicate,
the server-side `parseEarthquakeData` falls to its header-anchored scans, and
its result coincides with parsing the lines located by the spec's wording of
the header-anchored scan (`specHeaderScanLines`); under this hypothesis every
variant returns the empty list, because the candidate predicate is monotone
under extending a line to the left, so no suffix of the text can contain a
candidate line either. -/
theorem claim_C6_header_scan :
    ∀ rawText : String, (∀ l ∈ splitLines rawText, candidateLine l = false) →
      parseEarthquakeDataServer rawText =
        parseEarthquakeLines (joinNl (specHeaderScanLines specHeaders rawText)) ∧
      parseEarthquakeDataServer rawText = [] := by
  intro raw hyp
  have h1 := serverParse_empty_of_no_candidate hyp
  have h2 := specHeaderScanLines_empty hyp specHeaders
  constructor
  · rw [h1, h2]
    rfl
  · exact h1

/-- C6 witness: a report text with a known header and a date but no
candidate line. -/
theorem claim_C6_header_scan_witness :
    parseEarthquakeDataServer
        "TURKIYE VE YAKIN CEVRESINDEKI SON DEPREMLER\n2024.03.15 hello" =
      parseEarthquakeLines (joinNl (specHeaderScanLines specHeaders
        "TURKIYE VE YAKIN CEVRESINDEKI SON DEPREMLER\n2024.03.15 hello")) ∧
    parseEarthquakeDataServer
        "TURKIYE VE YAKIN CEVRESINDEKI SON DEPREMLER\n2024.03.15 hello" = [] :=
  claim_C6_header_scan
    "TURKIYE VE YAKIN CEVRESINDEKI SON DEPREMLER\n2024.03.15 hello" (by decide)

/-- C7: the client-side chain, as a function of the three transports'
behaviours, never raises (its exception-monad form always resolves to an
`ok` value, namely the value of the pure chain), and whenever every stage
fails to produce usable data the result is the static fallback dataset. -/
theorem claim_C7_never_raises :
    ∀ t : Transports,
      fetchEarthquakeDataE t = Except.ok (fetchEarthquakeDataPure t) ∧
      (stageFails t.direct → stageFails t.localProxy → stageFails t.publicProxy →
        fetchEarthquakeDataPure t = fallbackEarthquakeData) := by
  intro t
  refine ⟨fetchEarthquakeDataE_ok t, fun h1 h2 h3 => ?_⟩
  rw [fetchEarthquakeDataPure, stageStep_of_fails h1, fetchWithProxyPure,
    stageStep_of_fails h2, fetchWithPublicProxyPure, stageStep_of_fails h3]

/-- C7 witness: with every transport throwing, the chain resolves to the
static fallback without raising. -/
theorem claim_C7_never_raises_witness :
    fetchEarthquakeDataE ⟨.netError, .netError, .netError⟩ =
      Except.ok (fetchEarthquakeDataPure ⟨.netError, .netError, .netError⟩) ∧
    fetchEarthquakeDataPure ⟨.netError, .netError, .netError⟩ =
      fallbackEarthquakeData :=
  ⟨(claim_C7_never_raises ⟨.netError, .netError, .netError⟩).1,
   (claim_C7_never_raises ⟨.netError, .netError, .netError⟩).2
     trivial trivial trivial⟩

/-- C8: a 200-status response from which zero records parse triggers the
next stage: if the direct transport succeeds with such a body, the chain's
result (in both its pure and exception-monad forms) is the local-proxy
stage's result, and likewise from the local proxy to the public proxy. -/
theorem claim_C8_fall_through :
    ∀ (t : Transports) (body : String),
      (t.direct = .response true body → parseEarthquakeDataClient body = [] →
        fetchEarthquakeDataPure t = fetchWithProxyPure t ∧
        fetchEarthquakeDataE t = fetchWithProxyE t) ∧
      (t.localProxy = .response true body → parseEarthquakeDataClient body = [] →
        fetchWithProxyPure t = fetchWithPublicProxyPure t ∧
        fetchWithProxyE t = fetchWithPublicProxyE t) := by
  intro t body
  constructor
  · intro hdir hp
    constructor
    · rw [fetchEarthquakeDataPure, hdir,
        stageStep_of_fails (o := .response true body) (Or.inr hp)]
    · rw [fetchEarthquakeDataE, hdir]
      show jsTry
          (if ((parseEarthquakeDataClient body).length == 0) = true
            then fetchWithProxyE t else pure (parseEarthquakeDataClient body))
          (fun _ => fetchWithProxyE t) = fetchWithProxyE t
      rw [hp, fetchWithProxyE_ok t]
      rfl
  · intro hloc hp
    constructor
    · rw [fetchWithProxyPure, hloc,
        stageStep_of_fails (o := .response true body) (Or.inr hp)]
    · rw [fetchWithProxyE, hloc]
      show jsTry
          (if ((parseEarthquakeDataClient body).length == 0) = true
            then fetchWithPublicProxyE t else pure (parseEarthquakeDataClient body))
          (fun _ => fetchWithPublicProxyE t) = fetchWithPublicProxyE t
      rw [hp, fetchWithPublicProxyE_ok t]
      rfl

/-- C8 witness: a direct 200 response with an unparseable (empty) body hands
over to the local-proxy stage. -/
theorem claim_C8_fall_through_witness :
    fetchEarthquakeDataPure ⟨.response true "", .netError, .netError⟩ =
      fetchWithProxyPure ⟨.response true "", .netError, .netError⟩ ∧
    fetchEarthquakeDataE ⟨.response true "", .netError, .netError⟩ =
      fetchWithProxyE ⟨.response true "", .netError, .netError⟩ :=
  (claim_C8_fall_through ⟨.response true "", .netError, .netError⟩ "").1
    rfl (by decide)

set_option maxRecDepth 4000 in
unseal Rat.add Rat.mul Rat.sub Rat.inv in
/-- C9 counterexample: for the client-side parser the stated equivalence
fails — its candidate filter does not anchor the date token at the start of
the line, so the date field can absorb an underscore and collide: these two
records have equal ids but different dates. -/
theorem claim_C9_counterexample :
    (parseEarthquakeDataClient
        "A_B C 1 2 5 -.- 3.2 -.- LOC 2024.03.15\nA B_C 1 2 5 -.- 3.2 -.- LOC 2024.03.15").map
        Earthquake.id = ["A_B_C_1_2", "A_B_C_1_2"] ∧
    (parseEarthquakeDataClient
        "A_B C 1 2 5 -.- 3.2 -.- LOC 2024.03.15\nA B_C 1 2 5 -.- 3.2 -.- LOC 2024.03.15").map
        Earthquake.date = ["A_B", "A"] := by
  refine ⟨by decide, by decide⟩

set_option maxRecDepth 4000 in
unseal Rat.add Rat.mul Rat.sub Rat.inv in
/-- C9 amended: `id` is a pure function of exactly (date, time, latitude,
longitude) — for both parsers, records agreeing on those four fields get
equal ids — and for records produced by the server-side
`parseEarthquakeLines`, whose validation gate pins the date token to ten
date-pattern characters, id-equality conversely implies equality of the four
fields; for the client-side `parseEarthquakeData` the converse fails (see
the counterexample). -/
theorem claim_C9_id_key :
    (∀ (ds ds' : String) (r r' : Earthquake), r ∈ parseEarthquakeLines ds →
      r' ∈ parseEarthquakeLines ds' →
      (r.id = r'.id ↔ (r.date = r'.date ∧ r.time = r'.time ∧
        r.latitude = r'.latitude ∧ r.longitude = r'.longitude))) ∧
    (∀ (raw raw' : String) (r r' : Earthquake), r ∈ parseEarthquakeDataClient raw →
      r' ∈ parseEarthquakeDataClient raw' →
      r.date = r'.date → r.time = r'.time → r.latitude = r'.latitude →
      r.longitude = r'.longitude → r.id = r'.id) := by
  constructor
  · intro ds ds' r r' h h'
    obtain ⟨hl, hus, hfa, hfo, hid⟩ := parseEarthquakeLines_shape h
    obtain ⟨hl', hus', hfa', hfo', hid'⟩ := parseEarthquakeLines_shape h'
    constructor
    · intro he
      rw [hid, hid'] at he
      exact mkId_inj hl hl' hfa hfo hfa' hfo' he
    · rintro ⟨h1, h2, h3, h4⟩
      rw [hid, hid', h1, h2, h3, h4]
  · intro raw raw' r r' h h' h1 h2 h3 h4
    obtain ⟨line, hsome⟩ := mem_parseEarthquakeDataClient h
    obtain ⟨line', hsome'⟩ := mem_parseEarthquakeDataClient h'
    rw [(parseLineClient_inv hsome).2, (parseLineClient_inv hsome').2,
      h1, h2, h3, h4]

set_option maxRecDepth 4000 in
unseal Rat.add Rat.mul Rat.sub Rat.inv in
/-- C9 witness: the equivalence instantiated on a concrete parsed record. -/
theorem claim_C9_id_key_witness :
    ("2024.03.15_14:23:11_38.45_27.12" : String) =
        "2024.03.15_14:23:11_38.45_27.12" ↔
      (("2024.03.15" : String) = "2024.03.15" ∧ ("14:23:11" : String) = "14:23:11" ∧
        JSNum.num (3845/100) = JSNum.num (3845/100) ∧
        JSNum.num (2712/100) = JSNum.num (2712/100)) :=
  claim_C9_id_key.1
    "2024.03.15 14:23:11 38.45 27.12 7.0 -.- 3.2 -.- PLACE A"
    "2024.03.15 14:23:11 38.45 27.12 7.0 -.- 3.2 -.- PLACE A"
    { date := "2024.03.15", time := "14:23:11", latitude := .num (3845/100),
      longitude := .num (2712/100), depth := .num 7, magnitudeMD := none,
      magnitudeML := some (.num (16/5)), magnitudeMw := none,
      location := "PLACE A", solutionQuality := "A",
      id := "2024.03.15_14:23:11_38.45_27.12" }
    { date := "2024.03.15", time := "14:23:11", latitude := .num (3845/100),
      longitude := .num (2712/100), depth := .num 7, magnitudeMD := none,
      magnitudeML := some (.num (16/5)), magnitudeMw := none,
      location := "PLACE A", solutionQuality := "A",
      id := "2024.03.15_14:23:11_38.45_27.12" }
    (by
      have h : parseEarthquakeLines
          "2024.03.15 14:23:11 38.45 27.12 7.0 -.- 3.2 -.- PLACE A" =
          [{ date := "2024.03.15", time := "14:23:11", latitude := .num (3845/100),
             longitude := .num (2712/100), depth := .num 7, magnitudeMD := none,
             magnitudeML := some (.num (16/5)), magnitudeMw := none,
             location := "PLACE A", solutionQuality := "A",
             id := "2024.03.15_14:23:11_38.45_27.12" }] := by decide
      rw [h]
      exact List.mem_cons_self _ _)
    (by
      have h : parseEarthquakeLines
          "2024.03.15 14:23:11 38.45 27.12 7.0 -.- 3.2 -.- PLACE A" =
          [{ date := "2024.03.15", time := "14:23:11", latitude := .num (3845/100),
             longitude := .num (2712/100), depth := .num 7, magnitudeMD := none,
             magnitudeML := some (.num (16/5)), magnitudeMw := none,
             location := "PLACE A", solutionQuality := "A",
             id := "2024.03.15_14:23:11_38.45_27.12" }] := by decide
      rw [h]
      exact List.mem_cons_self _ _)

theorem single_line_records {line : String} {r : Earthquake}
    (hblank : 0 < (jsTrim line).length) (hcand : candidateLine line = true)
    (hsome : parseLineClient line = some r) :
    (((([line] : List String).filter fun l => (jsTrim l).length > 0).filter
      candidateLine).filterMap parseLineClient) = [r] := by
  have h1 : (([line] : List String).filter fun l => (jsTrim l).length > 0) = [line] := by
    simp only [List.filter_cons, List.filter_nil]
    rw [if_pos (decide_eq_true hblank)]
  rw [h1]
  have h2 : (([line] : List String).filter candidateLine) = [line] := by
    simp only [List.filter_cons, List.filter_nil]
    rw [if_pos hcand]
  rw [h2]
  simp only [List.filterMap_cons, hsome, List.filterMap_nil]

set_option maxRecDepth 4000 in
unseal Rat.add Rat.mul Rat.sub Rat.inv in
/-- C10: the client-side parser performs no deduplication — it emits one
record per retained candidate line, in line order (its result is exactly the
filterMap of the per-line parser over the retained lines), so a raw text in
which the same valid data line occurs twice yields the same record at two
distinct positions of the result (ids are not unique within one result
list); the server-side `parseEarthquakeLines` behaves the same, as the
concrete duplicated section shows. -/
theorem claim_C10_no_dedup :
    (∀ raw : String, parseEarthquakeDataClient raw =
      (candidateLines raw).filterMap parseLineClient) ∧
    (∀ (raw line : String) (r : Earthquake) (A B C : List String),
      candidateLines raw = A ++ (line :: (B ++ (line :: C))) →
      parseLineClient line = some r →
      ∃ X Y Z : List Earthquake,
        parseEarthquakeDataClient raw = X ++ (r :: (Y ++ (r :: Z)))) ∧
    (∀ (pre mid post line : String) (r : Earthquake),
      '\n' ∉ pre.data → '\n' ∉ mid.data → '\n' ∉ post.data → '\n' ∉ line.data →
      0 < (jsTrim line).length → candidateLine line = true →
      parseLineClient line = some r →
      ∃ X Y Z : List Earthquake,
        parseEarthquakeDataClient (joinNl [pre, line, mid, line, post]) =
          X ++ (r :: (Y ++ (r :: Z)))) ∧
    (parseEarthquakeLines
        ("2024.03.15 14:23:11 38.45 27.12 7.0 -.- 3.2 -.- PLACE A\n2024.03.15 14:23:11 38.45 27.12 7.0 -.- 3.2 -.- PLACE A")).map
        Earthquake.id =
      ["2024.03.15_14:23:11_38.45_27.12", "2024.03.15_14:23:11_38.45_27.12"] := by
  refine ⟨clientParse_eq_filterMap, ?_, ?_, by decide⟩
  · intro raw line r A B C hdec hsome
    rw [clientParse_eq_filterMap, hdec]
    simp only [List.filterMap_append, List.filterMap_cons, hsome]
    exact ⟨_, _, _, rfl⟩
  intro pre mid post line r hp hm hpo hl hblank hcand hsome
  have hjoin : joinNl [pre, line, mid, line, post] =
      pre ++ "\n" ++ (line ++ "\n" ++ (mid ++ "\n" ++ (line ++ "\n" ++ post))) := rfl
  have hdata := congrArg String.data hjoin
  simp only [String.data_append] at hdata
  simp only [List.append_assoc, List.cons_append, List.nil_append] at hdata
  have hsplit : splitLines (joinNl [pre, line, mid, line, post]) =
      [pre, line, mid, line, post] := by
    rw [splitLines, hdata, splitNlC_append hp, splitNlC_append hl, splitNlC_append hm,
      splitNlC_append hl, splitNlC_single hpo]
    simp only [List.map_cons, List.map_nil, strEta]
  rw [clientParse_eq_filterMap, candidateLines, hsplit]
  have h5 : ([pre, line, mid, line, post] : List String) =
      [pre] ++ ([line] ++ ([mid] ++ ([line] ++ [post]))) := rfl
  rw [h5]
  simp only [List.filter_append, List.filterMap_append]
  rw [single_line_records hblank hcand hsome]
  exact ⟨_, _, _, rfl⟩

set_option maxRecDepth 4000 in
unseal Rat.add Rat.mul Rat.sub Rat.inv in
/-- C10 witness: a concrete text carrying the same valid line twice, with
junk lines around it, produces the same record at two positions. -/
theorem claim_C10_no_dedup_witness :
    ∃ (r : Earthquake) (X Y Z : List Earthquake),
      r.id = "2024.03.15_14:23:11_38.45_27.12" ∧
      parseEarthquakeDataClient (joinNl ["x",
          "2024.03.15 14:23:11 38.45 27.12 7.0 -.- 3.2 -.- PLACE A", "y",
          "2024.03.15 14:23:11 38.45 27.12 7.0 -.- 3.2 -.- PLACE A", "z"]) =
        X ++ (r :: (Y ++ (r :: Z))) := by
  refine ⟨{ date := "2024.03.15", time := "14:23:11",
            latitude := JSNum.num (3845/100), longitude := JSNum.num (2712/100),
            depth := JSNum.num 7, magnitudeMD := none,
            magnitudeML := some (JSNum.num (16/5)), magnitudeMw := none,
            location := "PLACE", solutionQuality := "A",
            id := "2024.03.15_14:23:11_38.45_27.12" }, ?_⟩
  obtain ⟨X, Y, Z, hXYZ⟩ := claim_C10_no_dedup.2.2.1 "x" "y" "z"
    "2024.03.15 14:23:11 38.45 27.12 7.0 -.- 3.2 -.- PLACE A"
    { date := "2024.03.15", time := "14:23:11",
      latitude := JSNum.num (3845/100), longitude := JSNum.num (2712/100),
      depth := JSNum.num 7, magnitudeMD := none,
      magnitudeML := some (JSNum.num (16/5)), magnitudeMw := none,
      location := "PLACE", solutionQuality := "A",
      id := "2024.03.15_14:23:11_38.45_27.12" }
    (by decide) (by decide) (by decide) (by decide) (by decide) (by decide)
    (by decide)
  exact ⟨X, Y, Z, rfl, hXYZ⟩

end Koeri
